import Mathlib

/-!
Verification development for the aster game-generation engine.

The embedding below follows the TypeScript sources:
 - the generation service (`generateGameCode` and its helpers
   `extractRetryDelay`, `retryWithBackoff`, the model roster, the output
   cleanup and the aggregated error messages);
 - the preview component (`GamePreview`: the blob-URL effect keyed on the
   source code and the pause/resume `postMessage` effect keyed on the flag);
 - the app shell (`handleGenerate`, which drives regeneration).

JavaScript strings are modelled as Lean `String`/`List Char`.  The `\s`
character class and `String.prototype.trim` are modelled over the ASCII
whitespace characters (space, tab, newline, carriage return, vertical tab,
form feed), which is the fragment the program's data exercises.
-/

set_option maxRecDepth 100000

namespace Aster

/-- JavaScript `\s` (restricted to ASCII): the whitespace characters the
regular expressions and `trim` treat as blank. -/
def isJsWs (c : Char) : Bool :=
  c = ' ' || c = '\t' || c = '\n' || c = '\r' || c = '\x0b' || c = '\x0c'

/-- `pat` occurs as a contiguous substring of `l`; mirrors JavaScript
`String.prototype.includes`, which is case sensitive. -/
def listContains (pat : List Char) : List Char → Bool
  | [] => pat.isEmpty
  | c :: rest => pat.isPrefixOf (c :: rest) || listContains pat rest

/-- `String.prototype.includes` on Lean strings. -/
def strIncludes (s pat : String) : Bool := listContains pat.data s.data

/-- `String.prototype.startsWith` on Lean strings. -/
def strStartsWith (s pat : String) : Bool := pat.data.isPrefixOf s.data

/-- Strip a trailing run of whitespace (the right half of `trim`). -/
def dropTrailingWs (l : List Char) : List Char :=
  (l.reverse.dropWhile isJsWs).reverse

/-- JavaScript `String.prototype.trim` over the modelled whitespace set. -/
def jsTrim (l : List Char) : List Char :=
  dropTrailingWs (l.dropWhile isJsWs)

/-- A JavaScript error value as the service inspects it: its `message`
property and the text `JSON.stringify(error)` yields (for a thrown `Error`
object that text is `"\x7b\x7d"`, because `Error`'s own properties are not
enumerable).  The two optional fields carry the outcome of the two
retry-delay regular expressions of `extractRetryDelay`, already converted
to milliseconds (`Math.ceil(parseFloat(m) * 1000)`); `none` means the
regular expression does not match.  The regex engine itself is abstracted
into these two fields. -/
structure JsError where
  message : String
  jsonString : String
  retryDelayHintMs : Option Nat
  messageRetryHintMs : Option Nat
deriving DecidableEq, Repr

/-- `extractRetryDelay` (service, lines 186-202): the `retryDelay` hint from
the stringified error, else the `retry in Ns` hint from the message, else
the default 5000 ms. -/
def extractRetryDelay (e : JsError) : Nat :=
  match e.retryDelayHintMs with
  | some ms => ms
  | none =>
    match e.messageRetryHintMs with
    | some ms => ms
    | none => 5000

/-- The rate-limit classification used both inside `retryWithBackoff` and by
the model loop of `generateGameCode` (the four `includes` tests, in source
order). -/
def isRateLimitError (e : JsError) : Bool :=
  strIncludes e.message "429" || strIncludes e.message "quota" ||
  strIncludes e.message "rate limit" || strIncludes e.jsonString "429"

/-- The not-found classification of the model loop (the five `includes` tests,
in source order). -/
def is404Error (e : JsError) : Bool :=
  strIncludes e.message "404" || strIncludes e.message "not found" ||
  strIncludes e.message "is not found" || strIncludes e.jsonString "404" ||
  strIncludes e.jsonString "not found"

/-- The fixed text `retryWithBackoff` prepends when it exhausts its retries. -/
def rateLimitExhaustedPrefix : String :=
  "Rate limit exceeded. Please wait before trying again. Check your quota at https://ai.dev/usage?tab=rate-limit. Original error: "

/-- The `Error` thrown by `retryWithBackoff` when every retry hit the rate
limit: a fresh `Error` whose message embeds the original error's message.
`JSON.stringify` of a plain `Error` is `"\x7b\x7d"`, and `extractRetryDelay`
is never applied to this error, so its hint fields are `none`. -/
def rateLimitExhaustedError (e : JsError) : JsError :=
  { message := rateLimitExhaustedPrefix ++ e.message
    jsonString := "\x7b\x7d"
    retryDelayHintMs := none
    messageRetryHintMs := none }

/-- Outcome of a JavaScript async function: a resolved value, a thrown error,
or `undefined` when `retryWithBackoff`'s loop falls through (reachable only
with `maxRetries = 0`). -/
inductive JsResult where
  | ok (text : String)
  | thrown (e : JsError)
  | undef
deriving DecidableEq, Repr

/-- The loop body of `retryWithBackoff` (service, lines 205-242), from
iteration `attempt` on.  `fn k` is the outcome of the `k`-th invocation of
the wrapped call (0-based).  `rem` counts the iterations the loop guard
`attempt < maxRetries` still allows, i.e. `maxRetries - attempt`; recursion
is on it.  Returns the terminal outcome together with the number of
invocations made and the list of backoff delays slept, in order; the
`console.warn` is dropped and `setTimeout` is modelled by recording the
delay. -/
def retryAux (fn : Nat → Except JsError String) (maxRetries baseDelay : Nat) :
    Nat → Nat → JsResult × Nat × List Nat
  | _attempt, 0 => (.undef, 0, [])
  | attempt, rem + 1 =>
    match fn attempt with
    | .ok t => (.ok t, 1, [])
    | .error e =>
      if isRateLimitError e then
        if attempt < maxRetries - 1 then
          let backoffDelay := extractRetryDelay e + baseDelay * 2 ^ attempt
          let rest := retryAux fn maxRetries baseDelay (attempt + 1) rem
          (rest.1, rest.2.1 + 1, backoffDelay :: rest.2.2)
        else (.thrown (rateLimitExhaustedError e), 1, [])
      else (.thrown e, 1, [])

/-- `retryWithBackoff(fn, maxRetries, baseDelay)`: run the loop from
attempt 0, which the guard allows `maxRetries` times. -/
def retryWithBackoff (fn : Nat → Except JsError String)
    (maxRetries baseDelay : Nat) : JsResult × Nat × List Nat :=
  retryAux fn maxRetries baseDelay 0 maxRetries

/-! ### Output cleanup (service, lines 266-286)

The successful branch of the model loop post-processes the raw response
text with a chain of regular-expression replacements followed by `trim`.
Each step is modelled below over `List Char`, keeping the JavaScript
regular-expression semantics (anchors, greediness, the `g` and `m` flags)
of the source. -/

/-- Strip `pat` (matched exactly) from the front of `l`; `none` when `l`
does not start with `pat`. -/
def dropExactPrefix : List Char → List Char → Option (List Char)
  | [], l => some l
  | _ :: _, [] => none
  | p :: ps, c :: cs => if c = p then dropExactPrefix ps cs else none

/-- Strip `pat` from the front of `l` matching letters case-insensitively
(the `i` flag; only ASCII letters fold, which covers every pattern the
source uses). -/
def dropCIPrefix : List Char → List Char → Option (List Char)
  | [], l => some l
  | _ :: _, [] => none
  | p :: ps, c :: cs => if c.toLower = p.toLower then dropCIPrefix ps cs else none

/-- `text.replace(/^\x60\x60\x60html\s*/i, '')`: the three backticks match
exactly (the `i` flag only affects letters), then `html` case-insensitively,
then a greedy whitespace run. -/
def stripFenceHtmlPrefix (l : List Char) : List Char :=
  match dropExactPrefix "```".data l with
  | none => l
  | some afterTicks =>
    match dropCIPrefix "html".data afterTicks with
    | none => l
    | some rest => rest.dropWhile isJsWs

/-- `text.replace(/^\x60\x60\x60\s*/i, '')`. -/
def stripFencePrefix (l : List Char) : List Char :=
  match dropExactPrefix "```".data l with
  | none => l
  | some rest => rest.dropWhile isJsWs

/-- `text.replace(/\x60\x60\x60\s*$/g, '')`.  Without the `m` flag `$` only
matches at the very end, so the regex matches exactly when the text ends in
three backticks followed by whitespace, and at most one (the trailing)
occurrence is removed. -/
def stripTrailingFence (l : List Char) : List Char :=
  let core := dropTrailingWs l
  if "```".data.isSuffixOf core then core.take (core.length - 3) else l

/-- A JavaScript line terminator relevant to `$` under the `m` flag (the
ASCII ones). -/
def isLineTerm (c : Char) : Bool := c = '\n' || c = '\r'

/-- For the text right after a matched `\x60\x60\x60`, the greedy length of
`\s*` such that the position after it satisfies a multiline `$` (end of
input, or just before a line terminator); `none` when no such length
exists and the fence does not take part in a match. -/
def gmWsLen (tl : List Char) : Option Nat :=
  let ws := tl.takeWhile isJsWs
  let after := tl.drop ws.length
  if after.isEmpty then some ws.length
  else (ws.reverse.findIdx? isLineTerm).map (fun j => ws.length - 1 - j)

/-- The scan of `text.replace(/\x60\x60\x60\s*$/gm, '')`: left to right; at
each fence occurrence, remove the fence and the greedy whitespace run
ending at a multiline `$` position when one exists, and resume scanning
after the removed match.  Every step shortens the text, so `fuel` (any
bound on the length) makes the recursion structural. -/
def gmStripAux : Nat → List Char → List Char
  | 0, l => l
  | _fuel + 1, [] => []
  | fuel + 1, c :: rest =>
    if "```".data.isPrefixOf (c :: rest) then
      match gmWsLen (rest.drop 2) with
      | some k =>
        gmStripAux fuel (((rest.drop 2).takeWhile isJsWs).drop k ++
          (rest.drop 2).drop ((rest.drop 2).takeWhile isJsWs).length)
      | none => c :: gmStripAux fuel rest
    else c :: gmStripAux fuel rest

/-- `text.replace(/\x60\x60\x60\s*$/gm, '')`. -/
def gmStripFences (l : List Char) : List Char := gmStripAux l.length l

/-- The alternation `(!DOCTYPE|html|head|body|script|style|canvas|div)` of
the document-start regex. -/
def htmlStartWords : List (List Char) :=
  ["!DOCTYPE".data, "html".data, "head".data, "body".data,
   "script".data, "style".data, "canvas".data, "div".data]

/-- Whether `/<(!DOCTYPE|html|head|body|script|style|canvas|div)/i` matches
at the head of `l`. -/
def markerAt (l : List Char) : Bool :=
  match l with
  | [] => false
  | c :: rest => c = '<' && htmlStartWords.any (fun w => (dropCIPrefix w rest).isSome)

/-- Index of the leftmost document-start match (`match.index`). -/
def findMarkerIdx : List Char → Option Nat
  | [] => none
  | c :: rest =>
    if markerAt (c :: rest) then some 0 else (findMarkerIdx rest).map (· + 1)

/-- The "remove explanatory text before the HTML" step: when the marker
match exists at a truthy positive index, keep the text from it on
(`text.substring(htmlStartMatch.index)`). -/
def dropBeforeHtmlStart (l : List Char) : List Char :=
  match findMarkerIdx l with
  | some i => if i > 0 then l.drop i else l
  | none => l

/-- Index of the leftmost match of `/<\/html>\s*$/i`: a case-insensitive
`</html>` whose tail is all whitespace up to the end of the text. -/
def findHtmlEndIdx : List Char → Option Nat
  | [] => none
  | c :: rest =>
    match dropCIPrefix "</html>".data (c :: rest) with
    | some tail =>
      if tail.all isJsWs then some 0
      else (findHtmlEndIdx rest).map (· + 1)
    | none => (findHtmlEndIdx rest).map (· + 1)

/-- The "remove trailing text after the closing tag" step:
`text.substring(0, lastTagMatch.index + lastTagMatch[0].length)`.  The
match, when it exists, is anchored at the end of the text, so the kept
prefix is `index + (length - index)` characters — the whole text. -/
def keepThroughHtmlEnd (l : List Char) : List Char :=
  match findHtmlEndIdx l with
  | some i => l.take (i + (l.length - i))
  | none => l

/-- The whole cleanup chain applied to a successful response's text, in
source order, ending in `trim`. -/
def sanitizeText (s : String) : String :=
  ⟨jsTrim (keepThroughHtmlEnd (dropBeforeHtmlStart (gmStripFences
    (stripTrailingFence (stripFencePrefix (stripFenceHtmlPrefix s.data))))))⟩

/-! ### Prompt composition (service, lines 140-171) -/

/-- The `finalPrompt` template literals of `generateGameCode`, transcribed
with their exact whitespace: the modification framing when `previousCode`
is passed, the new-game framing otherwise. -/
def composeFinalPrompt (prompt : String) (previousCode : Option String) : String :=
  match previousCode with
  | some prev =>
    "\n      I have an existing game code. I want to modify it.\n      \n      REQUEST: " ++
    prompt ++
    "\n\n      EXISTING CODE:\n      " ++
    prev ++
    "\n      \n      IMPORTANT: Modify the existing code while maintaining all working functionality. Ensure the modified code is complete, valid HTML that will execute without errors.\n      "
  | none =>
    "\n      " ++ prompt ++
    "\n      \n      CRITICAL: Generate a complete, working HTML game. The output must:\n      - Be valid, executable HTML with proper structure\n      - Include all necessary CSS and JavaScript\n      - Work immediately when inserted into a page\n      - Have no syntax errors, undefined variables, or missing functions\n      - Use proper game loop with requestAnimationFrame\n      - Handle all edge cases and input validation\n      - Be fully playable and functional\n      - Fill the ENTIRE viewport (100vw x 100vh) with NO margins, padding, or centering containers\n      - Canvas/game area must be fullscreen, not in a centered frame\n      \n      Return ONLY the raw HTML code, no markdown, no explanations, no code blocks.\n      "

/-! ### The model loop of `generateGameCode` (service, lines 173-344) -/

/-- The roster of model identifiers, in fallback order. -/
def modelsToTry : List String :=
  ["gemini-2.5-flash", "gemini-2.5-flash-lite", "gemma-3-27b", "gemma-3-12b", "gemma-3-4b"]

/-- The `TypeError` V8 raises when the loop body dereferences the
`undefined` that `retryWithBackoff` would resolve with after a fall-through
(`result.response` on `undefined`).  Unreachable at the source's call site,
where `maxRetries = 3`. -/
def undefinedResponseError : JsError :=
  { message := "Cannot read properties of undefined (reading 'response')"
    jsonString := "\x7b\x7d"
    retryDelayHintMs := none
    messageRetryHintMs := none }

/-- Terminal state of the `for (const modelName of modelsToTry)` loop:
a successful (already cleaned-up) text, an immediately rethrown error, or
exhaustion with the accumulated `failedModels` and `lastError`. -/
inductive LoopOut where
  | success (text : String)
  | fatal (e : JsError)
  | exhausted (failedModels : List String) (lastError : Option JsError)
deriving DecidableEq, Repr

/-- One model's terminal outcome as the loop's `catch` classifies it: the
`failedModels` entry it pushes, when it continues to the next candidate
(`none` when the model succeeds, or aborts the loop). -/
def candidateFailLabel (behav : String → Nat → Except JsError String) (m : String) :
    Option String :=
  match (retryWithBackoff (behav m) 3 1000).1 with
  | .ok _ => none
  | .undef => none
  | .thrown e =>
    if is404Error e then some m
    else if isRateLimitError e then some (m ++ " (quota exceeded)")
    else none

/-- The model loop.  `behav m k` is the outcome of the `k`-th invocation of
`model.generateContent(finalPrompt)` for model `m`; each candidate is
invoked through `retryWithBackoff(fn, 3, 1000)`.  Besides the loop's own
state (`failedModels`, `lastError`) the function returns, as ghost
instrumentation, the list of models whose backend was invoked, in order,
and the final contents of `failedModels` (which the source discards on
success). -/
def runCandidates (behav : String → Nat → Except JsError String) :
    List String → List String → Option JsError → LoopOut × List String × List String
  | [], failed, last => (.exhausted failed last, [], failed)
  | m :: rest, failed, _last =>
    match (retryWithBackoff (behav m) 3 1000).1 with
    | .ok raw => (.success (sanitizeText raw), [m], failed)
    | .undef =>
      -- dead with maxRetries = 3; dereferencing undefined throws a TypeError,
      -- which the catch classifies as neither 404 nor quota and rethrows
      (.fatal undefinedResponseError, [m], failed)
    | .thrown e =>
      if is404Error e then
        let r := runCandidates behav rest (failed ++ [m]) (some e)
        (r.1, m :: r.2.1, r.2.2)
      else if isRateLimitError e then
        let r := runCandidates behav rest (failed ++ [m ++ " (quota exceeded)"]) (some e)
        (r.1, m :: r.2.1, r.2.2)
      else (.fatal e, [m], failed)

/-- `failedModels.join(', ')` (JavaScript `Array.prototype.join`). -/
def joinComma : List String → String
  | [] => ""
  | [x] => x
  | x :: rest => x ++ ", " ++ joinComma rest

/-- Fixed head of the mixed-failures diagnostic. -/
def mixedTemplateHead : String :=
  "All models failed. Some models had quota issues, others were not found.\n\nTried: "

/-- Fixed head of the all-quota diagnostic. -/
def quotaTemplateHead : String := "All models exceeded quota limits. Tried: "

/-- Fixed head of the all-not-found diagnostic. -/
def notFoundTemplateHead : String := "All models failed (404 errors). Tried: "

/-- `lastError?.message || 'Unknown error'`. -/
def lastErrorText (lastError : Option JsError) : String :=
  match lastError with
  | some e => if e.message = "" then "Unknown error" else e.message
  | none => "Unknown error"

/-- The aggregated diagnostic built when the loop exhausts every model
(service, lines 324-337), with the template literals transcribed. -/
def aggregatedMessage (failedModels : List String) (lastError : Option JsError) : String :=
  let hasQuotaErrors := failedModels.any (fun m => strIncludes m "quota")
  let has404Errors := failedModels.any (fun m => !(strIncludes m "quota"))
  let tried := joinComma failedModels
  let lastMsg := lastErrorText lastError
  if hasQuotaErrors && has404Errors then
    mixedTemplateHead ++ tried ++
    "\n\nThis usually means:\n1. You've exceeded your API quota/rate limits\n2. Some models may not be available in your region\n3. Your API key may not have access to certain models\n\nPlease:\n- Check your quota at https://ai.dev/usage?tab=rate-limit\n- Wait a few minutes before trying again\n- Verify API key permissions at https://aistudio.google.com/apikey\n\nLast error: " ++
    lastMsg
  else if hasQuotaErrors then
    quotaTemplateHead ++ tried ++
    "\n\nYou've hit your rate limit or daily quota. Please:\n- Wait before trying again (check the retry time in the error)\n- Monitor your usage at https://ai.dev/usage?tab=rate-limit\n- Consider upgrading your plan if you need higher limits\n\nLast error: " ++
    lastMsg
  else if has404Errors then
    notFoundTemplateHead ++ tried ++
    "\n\nThis usually means:\n1. Your API key may not have access to these models\n2. The models may not be available in your region\n3. The Generative Language API may not be enabled for your project\n\nPlease check your API key permissions at https://aistudio.google.com/apikey\n\nLast error: " ++
    lastMsg
  else
    "All model attempts failed. Last error: " ++ lastMsg

/-- `generateGameCode(prompt, previousCode)`.  `world m p k` is the outcome
of the `k`-th `generateContent` invocation for model `m` on final prompt
`p`; the system instruction, generation parameters and the network are
absorbed into `world`.  The outer `try/catch` rethrows every failure as
`new Error(error.message || "Failed to generate game code.")`, so the
function resolves with the cleaned-up text or rejects with a message
string.  The two trailing components are the ghost traces of
`runCandidates`. -/
def generateGameCode (world : String → String → Nat → Except JsError String)
    (prompt : String) (previousCode : Option String) :
    Except String String × List String × List String :=
  let finalPrompt := composeFinalPrompt prompt previousCode
  match runCandidates (fun m k => world m finalPrompt k) modelsToTry [] none with
  | (.success t, inv, failed) => (.ok t, inv, failed)
  | (.fatal e, inv, failed) =>
    (.error (if e.message = "" then "Failed to generate game code." else e.message),
     inv, failed)
  | (.exhausted failedModels lastError, inv, failed) =>
    let msg := aggregatedMessage failedModels lastError
    (.error (if msg = "" then "Failed to generate game code." else msg), inv, failed)

/-! ### The execution host (`GamePreview.tsx`)

`GamePreview` owns the sandboxed iframe.  Two `useEffect`s drive it: one
keyed on `[code]` (create a blob URL, point the iframe at it, and on
cleanup revoke the previous URL) and one keyed on `[isPaused]` (post a
`\x7b type: 'pause' | 'resume' \x7d` message into the iframe).  React runs
an effect after a render exactly when its dependency changed (always on
the first render), running the previous effect's cleanup first.  Blob URLs
are modelled by numeric ids. -/

/-- The control message `postMessage` sends into the sandbox. -/
structure ControlMsg where
  type : String
deriving DecidableEq, Repr

/-- The host's state across renders of `GamePreview`: the allocated
(not yet revoked) blob URLs, the id counter, the iframe's `src`, the
pending cleanup of the `[code]` effect, the previous values of the two
dependencies, whether the iframe's `contentWindow` is reachable, and the
messages posted so far (oldest first). -/
structure PreviewHost where
  live : List Nat
  next : Nat
  src : Option Nat
  cleanupA : Option Nat
  prevCode : Option String
  prevPaused : Option Bool
  contentWindow : Bool
  sent : List ControlMsg
deriving DecidableEq, Repr

/-- Cleanup of the `[code]` effect: `URL.revokeObjectURL(url)` on the URL
the previous run created. -/
def runCleanupA (s : PreviewHost) : PreviewHost :=
  match s.cleanupA with
  | some u => { s with live := s.live.erase u, cleanupA := none }
  | none => s

/-- Body of the `[code]` effect: when the dependency changed, first run the
previous cleanup, then (when `code` is truthy) create a blob URL and point
the iframe at it, registering its revocation as the new cleanup. -/
def runEffectA (s : PreviewHost) (code : String) : PreviewHost :=
  if s.prevCode = some code then s
  else
    let s1 := runCleanupA s
    if code = "" then s1
    else
      { s1 with
        live := s1.live ++ [s1.next]
        next := s1.next + 1
        src := some s1.next
        cleanupA := some s1.next }

/-- Body of the `[isPaused]` effect: when the dependency changed and the
`contentWindow` is reachable, post `\x7b type: isPaused ? 'pause' :
'resume' \x7d`. -/
def runEffectB (s : PreviewHost) (isPaused : Bool) : PreviewHost :=
  if s.prevPaused = some isPaused then s
  else if s.contentWindow then
    { s with sent := s.sent ++ [⟨if isPaused then "pause" else "resume"⟩] }
  else s

/-- One committed render of `GamePreview` with props `(code, isPaused)`:
run the two effects in declaration order, then record the dependencies. -/
def renderPreview (s : PreviewHost) (code : String) (isPaused : Bool) : PreviewHost :=
  let s1 := runEffectA s code
  let s2 := runEffectB s1 isPaused
  { s2 with prevCode := some code, prevPaused := some isPaused }

/-! ### The app shell (`App.tsx`, `handleGenerate`) -/

/-- The app's view state. -/
inductive ViewState where
  | landing
  | generating
  | playing
  | editing
deriving DecidableEq, Repr

/-- The app state `handleGenerate` touches. -/
structure AppState where
  view : ViewState
  gameCode : Option String
  isPaused : Bool
  editPrompt : String
  error : Option String
deriving DecidableEq, Repr

/-- `handleGenerate(promptText, isEdit)` with the awaited
`generateGameCode` call's outcome passed in as `result`.  An empty
(trimmed) prompt returns immediately; otherwise the view moves to
`generating` and the error clears, and on resolution the code is stored
and the view becomes `playing` (on rejection the error is stored —
`err.message || "generation failed"` — and the view falls back).  Note
that no branch touches `isPaused`. -/
def handleGenerate (s : AppState) (promptText : String)
    (result : Except String String) : AppState :=
  if (⟨jsTrim promptText.data⟩ : String) = "" then s
  else
    let previousView := s.view
    match result with
    | .ok code =>
      { s with
        view := .playing
        error := none
        gameCode := some code
        editPrompt := "" }
    | .error m =>
      { s with
        view := if previousView = .editing then .playing else .landing
        error := some (if m = "" then "generation failed" else m) }

/-! ### Substring lemmas -/

theorem listContains_iff (pat l : List Char) : listContains pat l = true ↔ pat <:+: l := by
  induction l with
  | nil => simp [listContains, List.isEmpty_iff, List.infix_nil]
  | cons c rest ih =>
    simp [listContains, List.infix_cons_iff, ih, List.isPrefixOf_iff_prefix]

theorem listContains_eq_false_iff (pat l : List Char) :
    listContains pat l = false ↔ ¬ pat <:+: l := by
  rw [← listContains_iff]
  simp

theorem prefix_append_split {pat a b : List Char} (h : pat <+: a ++ b) :
    pat <+: a ∨ ∃ r, pat = a ++ r ∧ r <+: b := by
  induction a generalizing pat with
  | nil => exact .inr ⟨pat, by simp, by simpa using h⟩
  | cons x a' ih =>
    cases pat with
    | nil => exact .inl List.nil_prefix
    | cons p ps =>
      rw [List.cons_append, List.cons_prefix_cons] at h
      obtain ⟨hpx, hps⟩ := h
      rcases ih hps with h1 | ⟨r, hr, hrb⟩
      · exact .inl (by rw [hpx] at *; exact List.cons_prefix_cons.mpr ⟨rfl, h1⟩)
      · exact .inr ⟨r, by rw [hpx, hr]; rfl, hrb⟩

theorem infix_append_split {pat a b : List Char} (h : pat <:+: a ++ b) :
    pat <:+: a ∨ pat <:+: b ∨
      ∃ k, 0 < k ∧ k < pat.length ∧ pat.take k <:+ a ∧ pat.drop k <+: b := by
  induction a with
  | nil => exact .inr (.inl (by simpa using h))
  | cons x a' ih =>
    rw [List.cons_append, List.infix_cons_iff] at h
    rcases h with hp | hinf
    · have hp' : pat <+: (x :: a') ++ b := by simpa using hp
      rcases prefix_append_split hp' with h1 | ⟨r, hr, hrb⟩
      · exact .inl h1.isInfix
      · rcases r with _ | ⟨y, r'⟩
        · left
          rw [hr, List.append_nil]
        · right; right
          refine ⟨(x :: a').length, by simp, ?_, ?_, ?_⟩
          · rw [hr]
            simp
          · rw [hr, List.take_left]
          · rw [hr, List.drop_left]
            exact hrb
    · rcases ih hinf with h1 | h2 | ⟨k, hk0, hkl, hka, hkb⟩
      · exact .inl (List.infix_cons h1)
      · exact .inr (.inl h2)
      · exact .inr (.inr ⟨k, hk0, hkl, hka.trans (List.suffix_cons x a'), hkb⟩)

theorem not_listContains_append {pat a b : List Char}
    (ha : listContains pat a = false) (hb : listContains pat b = false)
    (hsplit : ∀ k, 0 < k → k < pat.length → ¬(pat.take k <:+ a ∧ pat.drop k <+: b)) :
    listContains pat (a ++ b) = false := by
  rw [listContains_eq_false_iff] at *
  intro h
  rcases infix_append_split h with h1 | h2 | ⟨k, h3, h4, h5, h6⟩
  · exact ha h1
  · exact hb h2
  · exact hsplit k h3 h4 ⟨h5, h6⟩

/-- Rule out the straddling splits from the left part alone (used when the
right part is arbitrary). -/
theorem split_fail_left {pat a : List Char}
    (h : ∀ k, k < pat.length → 0 < k → ¬(pat.take k <:+ a)) (b : List Char) :
    ∀ k, 0 < k → k < pat.length → ¬(pat.take k <:+ a ∧ pat.drop k <+: b) :=
  fun k h0 hk hc => h k hk h0 hc.1

/-- Rule out the straddling splits from the right part alone (used when the
left part is arbitrary). -/
theorem split_fail_right {pat b : List Char}
    (h : ∀ k, k < pat.length → 0 < k → ¬(pat.drop k <+: b)) (a : List Char) :
    ∀ k, 0 < k → k < pat.length → ¬(pat.take k <:+ a ∧ pat.drop k <+: b) :=
  fun k h0 hk hc => h k hk h0 hc.2

theorem listContains_of_isInfix {pat l : List Char} (h : pat <:+: l) :
    listContains pat l = true := (listContains_iff pat l).mpr h

theorem listContains_middle (a pat b : List Char) :
    listContains pat (a ++ pat ++ b) = true :=
  listContains_of_isInfix (List.infix_append a pat b)

theorem listContains_mono {p q l : List Char} (hpq : p <:+: q)
    (h : listContains q l = true) : listContains p l = true :=
  listContains_of_isInfix (hpq.trans ((listContains_iff q l).mp h))

theorem listContains_cons_of_tail {pat : List Char} {c : Char} {rest : List Char}
    (h : listContains pat rest = true) : listContains pat (c :: rest) = true := by
  simp [listContains, h]

theorem strIncludes_append (s t pat : String) :
    strIncludes (s ++ t) pat = listContains pat.data (s.data ++ t.data) := by
  simp [strIncludes, String.data_append]

theorem listContains_false_mono {p q l : List Char} (hpq : p <:+: q)
    (h : listContains p l = false) : listContains q l = false := by
  cases hq : listContains q l
  · rfl
  · exact absurd (listContains_mono hpq hq) (by simp [h])

theorem listContains_append_of_left {pat a : List Char}
    (h : listContains pat a = true) (b : List Char) :
    listContains pat (a ++ b) = true :=
  listContains_of_isInfix (((listContains_iff _ _).mp h).trans (List.prefix_append a b).isInfix)

theorem listContains_append_of_right {pat b : List Char} (a : List Char)
    (h : listContains pat b = true) :
    listContains pat (a ++ b) = true :=
  listContains_of_isInfix (((listContains_iff _ _).mp h).trans (List.suffix_append a b).isInfix)

/-! ### Behavior of the retry loop -/

theorem retryAux_ok {fn : Nat → Except JsError String} {mR bD a rem : Nat} {t : String}
    (hfn : fn a = .ok t) : retryAux fn mR bD a (rem + 1) = (.ok t, 1, []) := by
  simp [retryAux, hfn]

theorem retryAux_retry {fn : Nat → Except JsError String} {mR bD a rem : Nat} {e : JsError}
    (hfn : fn a = .error e) (hrl : isRateLimitError e = true) (hlt : a < mR - 1) :
    retryAux fn mR bD a (rem + 1) =
      ((retryAux fn mR bD (a + 1) rem).1,
       (retryAux fn mR bD (a + 1) rem).2.1 + 1,
       (extractRetryDelay e + bD * 2 ^ a) :: (retryAux fn mR bD (a + 1) rem).2.2) := by
  simp [retryAux, hfn, hrl, hlt]

theorem retryAux_exhaust {fn : Nat → Except JsError String} {mR bD a rem : Nat} {e : JsError}
    (hfn : fn a = .error e) (hrl : isRateLimitError e = true) (hge : ¬ a < mR - 1) :
    retryAux fn mR bD a (rem + 1) = (.thrown (rateLimitExhaustedError e), 1, []) := by
  simp [retryAux, hfn, hrl, hge]

theorem retryAux_fatal {fn : Nat → Except JsError String} {mR bD a rem : Nat} {e : JsError}
    (hfn : fn a = .error e) (hrl : isRateLimitError e = false) :
    retryAux fn mR bD a (rem + 1) = (.thrown e, 1, []) := by
  simp [retryAux, hfn, hrl]

/-- A call that keeps failing with rate-limit classified errors exhausts the
three attempts and throws the distinguished rate-limit error built from the
error of the last attempt. -/
theorem retryWithBackoff_exhausts {fn : Nat → Except JsError String} {e0 e1 e2 : JsError}
    (h0 : fn 0 = .error e0) (h1 : fn 1 = .error e1) (h2 : fn 2 = .error e2)
    (hr0 : isRateLimitError e0 = true) (hr1 : isRateLimitError e1 = true)
    (hr2 : isRateLimitError e2 = true) :
    retryWithBackoff fn 3 1000 =
      (.thrown (rateLimitExhaustedError e2), 3,
       [extractRetryDelay e0 + 1000 * 2 ^ 0, extractRetryDelay e1 + 1000 * 2 ^ 1]) := by
  show retryAux fn 3 1000 0 (2 + 1) = _
  rw [retryAux_retry h0 hr0 (by omega)]
  show (_ : JsResult × Nat × List Nat) = _
  rw [show (2 : Nat) = 1 + 1 from rfl, retryAux_retry h1 hr1 (by omega),
    retryAux_exhaust h2 hr2 (by omega)]

/-- C2 (amended): with `maxAttempts = 3` and `baseDelay = 1000`, a call that
fails with a rate-limit classified error on the first two attempts and
succeeds on the third returns the success, is invoked exactly 3 times, and
each wait is `extractRetryDelay(error) + baseDelay * 2 ^ attemptIndex`
where the hint defaults to 5000 ms when the error carries none.  The two
delays are strictly increasing whenever the first server hint does not
exceed the second (in particular when both default); with a larger first
hint they need not increase, which is what the counterexample exhibits. -/
theorem retry_succeeds_third_attempt_with_backoff
    (fn : Nat → Except JsError String) (e0 e1 : JsError) (t : String)
    (h0 : fn 0 = .error e0) (h1 : fn 1 = .error e1) (h2 : fn 2 = .ok t)
    (hr0 : isRateLimitError e0 = true) (hr1 : isRateLimitError e1 = true) :
    retryWithBackoff fn 3 1000 =
      (.ok t, 3, [extractRetryDelay e0 + 1000 * 2 ^ 0, extractRetryDelay e1 + 1000 * 2 ^ 1]) ∧
    (∀ e : JsError, e.retryDelayHintMs = none → e.messageRetryHintMs = none →
      extractRetryDelay e = 5000) ∧
    (extractRetryDelay e0 ≤ extractRetryDelay e1 →
      extractRetryDelay e0 + 1000 * 2 ^ 0 < extractRetryDelay e1 + 1000 * 2 ^ 1) := by
  refine ⟨?_, ?_, ?_⟩
  · show retryAux fn 3 1000 0 (2 + 1) = _
    rw [retryAux_retry h0 hr0 (by omega)]
    show (_ : JsResult × Nat × List Nat) = _
    rw [show (2 : Nat) = 1 + 1 from rfl, retryAux_retry h1 hr1 (by omega), retryAux_ok h2]
  · intro e he1 he2
    simp [extractRetryDelay, he1, he2]
  · intro h
    have h20 : (2 : Nat) ^ 0 = 1 := by norm_num
    have h21 : (2 : Nat) ^ 1 = 2 := by norm_num
    omega

/-- The wrapped call of the witness for C2: quota errors without server
hints on the first two attempts, success on the third. -/
def witnessRetryFn : Nat → Except JsError String := fun k =>
  if k = 0 then .error ⟨"429 quota", "\x7b\x7d", none, none⟩
  else if k = 1 then .error ⟨"429 quota", "\x7b\x7d", none, none⟩
  else .ok "ok"

theorem retry_succeeds_third_attempt_with_backoff_witness :
    retryWithBackoff witnessRetryFn 3 1000 = (.ok "ok", 3, [6000, 7000]) ∧
    6000 < 7000 := by
  have h := retry_succeeds_third_attempt_with_backoff witnessRetryFn
    ⟨"429 quota", "\x7b\x7d", none, none⟩ ⟨"429 quota", "\x7b\x7d", none, none⟩ "ok"
    rfl rfl rfl (by decide) (by decide)
  exact ⟨h.1.trans (by decide), by decide⟩

/-- First-attempt error of the C2 counterexample: a 429 whose server hint
(6 s) exceeds the default hint the second attempt falls back to. -/
def cexRetryE0 : JsError :=
  ⟨"429 Too Many Requests", "\x7b\"error\":\x7b\"details\":\x7b\"retryDelay\":\"6s\"\x7d\x7d\x7d",
   some 6000, none⟩

/-- Second-attempt error of the C2 counterexample: a 429 without any hint. -/
def cexRetryE1 : JsError := ⟨"429 Too Many Requests", "\x7b\x7d", none, none⟩

/-- The wrapped call of the C2 counterexample. -/
def cexRetryFn : Nat → Except JsError String := fun k =>
  if k = 0 then .error cexRetryE0 else if k = 1 then .error cexRetryE1 else .ok "done"

/-- C2 counterexample: both early failures are quota classified and the call
succeeds on the third attempt after exactly 3 invocations, but the two
backoff delays are `6000 + 1000·2⁰ = 7000` and `5000 + 1000·2¹ = 7000` —
not strictly increasing. -/
theorem retry_delays_not_strictly_increasing_cex :
    isRateLimitError cexRetryE0 = true ∧ isRateLimitError cexRetryE1 = true ∧
    retryWithBackoff cexRetryFn 3 1000 = (.ok "done", 3, [7000, 7000]) ∧
    ¬ (7000 : Nat) < 7000 := by
  refine ⟨by decide, by decide, by decide, by omega⟩

/-! ### Classification of the distinguished rate-limit failure -/

/-- The distinguished failure always matches the quota classification: its
message embeds the word `quota` (in `Check your quota at …`). -/
theorem isRateLimitError_rateLimitExhausted (e : JsError) :
    isRateLimitError (rateLimitExhaustedError e) = true := by
  have h : strIncludes (rateLimitExhaustedPrefix ++ e.message) "quota" = true := by
    rw [strIncludes_append]
    exact listContains_append_of_left (by decide) _
  simp [isRateLimitError, rateLimitExhaustedError, h]

/-- The distinguished failure escapes the not-found classification exactly
when the embedded original message does: the fixed prefix contains no
`404`/`not found` and no straddling split is possible. -/
theorem is404Error_rateLimitExhausted (e : JsError)
    (h404 : strIncludes e.message "404" = false)
    (hnf : strIncludes e.message "not found" = false) :
    is404Error (rateLimitExhaustedError e) = false := by
  have hisnf : listContains "is not found".data e.message.data = false :=
    listContains_false_mono (by decide) hnf
  simp only [is404Error, rateLimitExhaustedError, Bool.or_eq_false_iff]
  refine ⟨⟨⟨⟨?_, ?_⟩, ?_⟩, by decide⟩, by decide⟩
  · rw [strIncludes_append]
    exact not_listContains_append (by decide) h404 (split_fail_left (by decide) _)
  · rw [strIncludes_append]
    exact not_listContains_append (by decide) hnf (split_fail_left (by decide) _)
  · rw [strIncludes_append]
    exact not_listContains_append (by decide) hisnf (split_fail_left (by decide) _)

/-- C3 (amended): when a candidate's every invocation fails with a
rate-limit classified error whose text does not itself match the not-found
patterns, the retry controller exhausts its 3 attempts and throws the
distinguished rate-limit failure carrying the original message; the model
loop classifies that failure as quota (not as not-found), records the
candidate as `… (quota exceeded)` and continues with the next candidate
instead of aborting. -/
theorem rate_limit_exhaustion_falls_back
    (e : JsError) (hrl : isRateLimitError e = true)
    (h404 : strIncludes e.message "404" = false)
    (hnf : strIncludes e.message "not found" = false)
    (behav : String → Nat → Except JsError String) (m : String) (rest : List String)
    (failed : List String) (last : Option JsError)
    (hbe : ∀ k, behav m k = .error e) :
    (retryWithBackoff (behav m) 3 1000).1 = .thrown (rateLimitExhaustedError e) ∧
    is404Error (rateLimitExhaustedError e) = false ∧
    isRateLimitError (rateLimitExhaustedError e) = true ∧
    runCandidates behav (m :: rest) failed last =
      ((runCandidates behav rest (failed ++ [m ++ " (quota exceeded)"])
          (some (rateLimitExhaustedError e))).1,
       m :: (runCandidates behav rest (failed ++ [m ++ " (quota exceeded)"])
          (some (rateLimitExhaustedError e))).2.1,
       (runCandidates behav rest (failed ++ [m ++ " (quota exceeded)"])
          (some (rateLimitExhaustedError e))).2.2) := by
  have hexh := retryWithBackoff_exhausts (hbe 0) (hbe 1) (hbe 2) hrl hrl hrl
  have h4 := is404Error_rateLimitExhausted e h404 hnf
  have hq := isRateLimitError_rateLimitExhausted e
  refine ⟨by rw [hexh], h4, hq, ?_⟩
  simp [runCandidates, hexh, h4, hq]

/-- The constant quota failure of the C3 witness. -/
def witnessQuotaErr : JsError := ⟨"429 You exceeded your current quota", "\x7b\x7d", none, none⟩

/-- The backend behavior of the C3 witness: both models always fail with
`witnessQuotaErr`. -/
def witnessQuotaBehav : String → Nat → Except JsError String := fun _ _ => .error witnessQuotaErr

theorem rate_limit_exhaustion_falls_back_witness :
    runCandidates witnessQuotaBehav ["gemini-2.5-flash", "gemini-2.5-flash-lite"] [] none =
      (.exhausted
        ["gemini-2.5-flash (quota exceeded)", "gemini-2.5-flash-lite (quota exceeded)"]
        (some (rateLimitExhaustedError witnessQuotaErr)),
       ["gemini-2.5-flash", "gemini-2.5-flash-lite"],
       ["gemini-2.5-flash (quota exceeded)", "gemini-2.5-flash-lite (quota exceeded)"]) := by
  have h := rate_limit_exhaustion_falls_back witnessQuotaErr (by decide) (by decide) (by decide)
    witnessQuotaBehav "gemini-2.5-flash" ["gemini-2.5-flash-lite"] [] none (fun _ => rfl)
  exact h.2.2.2.trans (by decide)

/-- The C3 counterexample's original cause: a 429 whose message also says
`not found`. -/
def cexNotFoundErr : JsError := ⟨"429 model not found", "\x7b\x7d", none, none⟩

/-- C3 counterexample: the cause is quota classified (so the retry
controller retries and then throws the distinguished failure), but the
model loop's not-found test runs first and also matches the embedded
message, so the raised failure is classified as not-found — the candidate
is recorded without the `(quota exceeded)` tag, not as quota-exhausted. -/
theorem rate_limit_exhaustion_misclassified_cex :
    isRateLimitError cexNotFoundErr = true ∧
    (retryWithBackoff (fun _ => .error cexNotFoundErr) 3 1000).1 =
      .thrown (rateLimitExhaustedError cexNotFoundErr) ∧
    is404Error (rateLimitExhaustedError cexNotFoundErr) = true ∧
    (runCandidates (fun _ _ => .error cexNotFoundErr) ["gemini-2.5-flash"] [] none).2.2 =
      ["gemini-2.5-flash"] := by
  refine ⟨by decide, by decide, by decide, by decide⟩

/-- C10: the entry point never rejects based on the content of a successful
backend response: whatever text the first succeeding candidate resolves
with — any `raw`, the empty string included — is passed through the
cleanup and returned as the success value, with no validation. -/
theorem generate_accepts_any_successful_text
    (world : String → String → Nat → Except JsError String)
    (prompt : String) (previousCode : Option String) (raw : String)
    (h : (retryWithBackoff
        (fun k => world "gemini-2.5-flash" (composeFinalPrompt prompt previousCode) k)
        3 1000).1 = .ok raw) :
    (generateGameCode world prompt previousCode).1 = .ok (sanitizeText raw) := by
  simp only [generateGameCode, modelsToTry, runCandidates]
  rw [h]

/-- The C10 witness world: the primary model immediately resolves with the
empty string. -/
def witnessEmptyWorld : String → String → Nat → Except JsError String :=
  fun _ _ _ => .ok ""

theorem generate_accepts_any_successful_text_witness :
    (generateGameCode witnessEmptyWorld "pong" none).1 = .ok "" := by
  have h := generate_accepts_any_successful_text witnessEmptyWorld "pong" none "" rfl
  exact h.trans (congrArg Except.ok (by decide))

/-- C9: on a mounted preview whose flag was last rendered `false`, rendering
with `isPaused = true` and then `isPaused = false` posts exactly two control
messages into the sandbox, with `type` fields `"pause"` then `"resume"`, in
that order (the `[code]` effect does not re-run, so nothing else is
emitted). -/
theorem pause_then_resume_emits_two_signals
    (s : PreviewHost) (c : String)
    (hcw : s.contentWindow = true) (hp : s.prevPaused = some false)
    (hc : s.prevCode = some c) :
    (renderPreview (renderPreview s c true) c false).sent =
      s.sent ++ [⟨"pause"⟩, ⟨"resume"⟩] := by
  simp [renderPreview, runEffectA, runEffectB, hcw, hp, hc]

/-- A mounted host for the C9 witness. -/
def witnessMountedHost : PreviewHost :=
  { live := [0], next := 1, src := some 0, cleanupA := some 0,
    prevCode := some "<html>g</html>", prevPaused := some false,
    contentWindow := true, sent := [] }

theorem pause_then_resume_emits_two_signals_witness :
    (renderPreview (renderPreview witnessMountedHost "<html>g</html>" true)
        "<html>g</html>" false).sent = [⟨"pause"⟩, ⟨"resume"⟩] := by
  have h := pause_then_resume_emits_two_signals witnessMountedHost "<html>g</html>"
    rfl rfl rfl
  exact h.trans (by decide)

/-- C8 (amended): remounting on a new source releases the previous blob URL
before the new one is created — the cleanup phase leaves no live resource,
and afterwards exactly the fresh URL is live, the old one gone.  The
suspended flag, however, is **not** reset by a successful regeneration:
`handleGenerate` stores the new code and switches to `playing` without
touching `isPaused`, so the new session inherits the prior session's flag
(only the explicit reset action clears it). -/
theorem remount_single_resource_flag_carried_over :
    (∀ (s : PreviewHost) (u : Nat) (c0 c1 : String) (b : Bool),
      s.live = [u] → s.cleanupA = some u → s.prevCode = some c0 →
      u < s.next → c1 ≠ c0 → c1 ≠ "" →
      (runCleanupA s).live = [] ∧
      (runEffectA s c1).live = [s.next] ∧
      u ∉ (runEffectA s c1).live ∧
      (renderPreview s c1 b).live = [s.next]) ∧
    (∀ (a : AppState) (p code : String),
      (handleGenerate a p (.ok code)).isPaused = a.isPaused) := by
  constructor
  · intro s u c0 c1 b hl hcl hpc hu hne hnz
    have hguard : ¬ (s.prevCode = some c1) := by
      rw [hpc]
      simp only [Option.some.injEq]
      exact fun h => hne h.symm
    have hcln : runCleanupA s = { s with live := [], cleanupA := none } := by
      simp only [runCleanupA, hcl]
      rw [hl]
      simp [List.erase_cons_head]
    have heff : runEffectA s c1 =
        { s with
          live := [s.next]
          next := s.next + 1
          src := some s.next
          cleanupA := some s.next } := by
      simp only [runEffectA, hguard, if_false, hcln]
      simp [hnz]
    refine ⟨by rw [hcln], by rw [heff], ?_, ?_⟩
    · rw [heff]
      intro hmem
      simp at hmem
      omega
    · simp only [renderPreview, runEffectB, heff]
      split
      · simp
      · split <;> simp
  · intro a p code
    simp only [handleGenerate]
    split
    · rfl
    · rfl

/-- A paused, playing app for the C8 scenarios. -/
def cexPausedApp : AppState :=
  { view := .editing, gameCode := some "<html>old</html>", isPaused := true,
    editPrompt := "make it red", error := none }

theorem remount_single_resource_flag_carried_over_witness :
    (runCleanupA witnessMountedHost).live = [] ∧
    (runEffectA witnessMountedHost "<html>new</html>").live = [1] ∧
    (handleGenerate cexPausedApp "make it red" (.ok "<html>new</html>")).isPaused =
      cexPausedApp.isPaused := by
  have h := remount_single_resource_flag_carried_over
  have h1 := h.1 witnessMountedHost 0 "<html>g</html>" "<html>new</html>" false
    rfl rfl rfl (by decide) (by decide) (by decide)
  exact ⟨h1.1, h1.2.1, h.2 cexPausedApp "make it red" "<html>new</html>"⟩

/-- C8 counterexample: regenerating from a paused session mounts the new
source (`gameCode` replaced, view `playing`) while `isPaused` remains
`true` — the new session's suspended flag is not reset to `false`. -/
theorem remount_does_not_reset_isSuspended_cex :
    (handleGenerate cexPausedApp "make it red" (.ok "<html>new</html>")).gameCode =
      some "<html>new</html>" ∧
    (handleGenerate cexPausedApp "make it red" (.ok "<html>new</html>")).view = .playing ∧
    (handleGenerate cexPausedApp "make it red" (.ok "<html>new</html>")).isPaused = true := by
  refine ⟨by decide, by decide, by decide⟩

/-! ### Roster order and first-success short-circuit -/

/-- A candidate whose classified failure pushes a `failedModels` entry
continues the loop; when every candidate before `m` does so and `m`'s
retried invocation succeeds, the loop short-circuits at `m`: the loop
invokes exactly the candidates up to and including `m`, in order, records
every earlier failure, and returns the cleaned-up text of `m`'s raw
response. -/
theorem runCandidates_first_success (behav : String → Nat → Except JsError String)
    (pre : List String) :
    ∀ (m : String) (post failed0 : List String) (last0 : Option JsError) (raw : String),
    (∀ m' ∈ pre, (candidateFailLabel behav m').isSome) →
    (retryWithBackoff (behav m) 3 1000).1 = .ok raw →
    runCandidates behav (pre ++ m :: post) failed0 last0 =
      (.success (sanitizeText raw), pre ++ [m],
       failed0 ++ pre.filterMap (candidateFailLabel behav)) := by
  induction pre with
  | nil =>
    intro m post failed0 last0 raw _ hok
    simp [runCandidates, hok]
  | cons m' pre' ih =>
    intro m post failed0 last0 raw hfail hok
    have hm' : (candidateFailLabel behav m').isSome := hfail m' (by simp)
    cases hres : (retryWithBackoff (behav m') 3 1000).1 with
    | ok t => simp [candidateFailLabel, hres] at hm'
    | undef => simp [candidateFailLabel, hres] at hm'
    | thrown e =>
      have hrest : ∀ x ∈ pre', (candidateFailLabel behav x).isSome :=
        fun x hx => hfail x (by simp [hx])
      by_cases h404 : is404Error e = true
      · have hlab : candidateFailLabel behav m' = some m' := by
          simp [candidateFailLabel, hres, h404]
        have ih' := ih m post (failed0 ++ [m']) (some e) raw hrest hok
        simp only [List.cons_append, runCandidates, hres, h404, if_true, List.append_eq]
        rw [ih']
        simp [hlab]
      · by_cases hrl : isRateLimitError e = true
        · have hlab : candidateFailLabel behav m' = some (m' ++ " (quota exceeded)") := by
            simp [candidateFailLabel, hres, h404, hrl]
          have ih' := ih m post (failed0 ++ [m' ++ " (quota exceeded)"]) (some e) raw hrest hok
          simp only [List.cons_append, runCandidates, hres, h404, hrl, List.append_eq]
          simp only [Bool.false_eq_true, if_false, if_true]
          rw [ih']
          simp [hlab]
        · simp [candidateFailLabel, hres, h404, hrl] at hm'

/-- C1: the loop tries the candidates strictly in roster order; the first
candidate whose (retried) invocation succeeds short-circuits it — the
result is `Ok` of the cleaned-up raw text, no later candidate is invoked,
and every earlier not-found/quota failure was recorded in order.  The
second conjunct instantiates this on `generateGameCode`'s concrete roster
with the first two candidates failing and the third succeeding. -/
theorem generate_first_success_wins_in_roster_order :
    (∀ (behav : String → Nat → Except JsError String) (pre : List String)
       (m : String) (post failed0 : List String) (last0 : Option JsError) (raw : String),
      (∀ m' ∈ pre, (candidateFailLabel behav m').isSome) →
      (retryWithBackoff (behav m) 3 1000).1 = .ok raw →
      runCandidates behav (pre ++ m :: post) failed0 last0 =
        (.success (sanitizeText raw), pre ++ [m],
         failed0 ++ pre.filterMap (candidateFailLabel behav))) ∧
    (∀ (world : String → String → Nat → Except JsError String) (p raw : String),
      (candidateFailLabel (fun m k => world m (composeFinalPrompt p none) k)
        "gemini-2.5-flash").isSome →
      (candidateFailLabel (fun m k => world m (composeFinalPrompt p none) k)
        "gemini-2.5-flash-lite").isSome →
      (retryWithBackoff (fun k => world "gemma-3-27b" (composeFinalPrompt p none) k)
        3 1000).1 = .ok raw →
      generateGameCode world p none =
        (.ok (sanitizeText raw),
         ["gemini-2.5-flash", "gemini-2.5-flash-lite", "gemma-3-27b"],
         ["gemini-2.5-flash", "gemini-2.5-flash-lite"].filterMap
           (candidateFailLabel (fun m k => world m (composeFinalPrompt p none) k)))) := by
  refine ⟨runCandidates_first_success, ?_⟩
  intro world p raw h1 h2 hok
  have hpre : ∀ m' ∈ ["gemini-2.5-flash", "gemini-2.5-flash-lite"],
      (candidateFailLabel (fun m k => world m (composeFinalPrompt p none) k) m').isSome := by
    intro m' hm'
    simp only [List.mem_cons, List.not_mem_nil, or_false] at hm'
    rcases hm' with h | h <;> subst h
    · exact h1
    · exact h2
  have h := runCandidates_first_success
    (fun m k => world m (composeFinalPrompt p none) k)
    ["gemini-2.5-flash", "gemini-2.5-flash-lite"] "gemma-3-27b"
    ["gemma-3-12b", "gemma-3-4b"] [] none raw hpre hok
  simp only [generateGameCode]
  rw [show modelsToTry =
    ["gemini-2.5-flash", "gemini-2.5-flash-lite"] ++ "gemma-3-27b" ::
      ["gemma-3-12b", "gemma-3-4b"] from rfl]
  rw [h]
  rfl

/-- The C1 witness world: the primary model is not found, the second is
rate limited on every attempt, the third succeeds. -/
def witnessRosterWorld : String → String → Nat → Except JsError String :=
  fun m _ _ =>
    if m = "gemini-2.5-flash" then .error ⟨"404 model not found", "\x7b\x7d", none, none⟩
    else if m = "gemini-2.5-flash-lite" then
      .error ⟨"429 RESOURCE_EXHAUSTED: quota", "\x7b\x7d", none, none⟩
    else .ok "<html>hi</html>"

theorem generate_first_success_wins_in_roster_order_witness :
    generateGameCode witnessRosterWorld "pong" none =
      (.ok "<html>hi</html>",
       ["gemini-2.5-flash", "gemini-2.5-flash-lite", "gemma-3-27b"],
       ["gemini-2.5-flash", "gemini-2.5-flash-lite (quota exceeded)"]) := by
  have h := generate_first_success_wins_in_roster_order.2 witnessRosterWorld "pong"
    "<html>hi</html>" (by decide) (by decide) (by decide)
  exact h.trans rfl

/-! ### Exhaustion of every candidate and the aggregated diagnostic -/

/-- A recorded failure entry is either the bare model name (not-found) or
the name tagged `(quota exceeded)`. -/
theorem candidateFailLabel_cases {behav : String → Nat → Except JsError String} {m : String}
    (h : (candidateFailLabel behav m).isSome) :
    candidateFailLabel behav m = some m ∨
    candidateFailLabel behav m = some (m ++ " (quota exceeded)") := by
  cases hres : (retryWithBackoff (behav m) 3 1000).1 with
  | ok t => simp [candidateFailLabel, hres] at h
  | undef => simp [candidateFailLabel, hres] at h
  | thrown e =>
    by_cases h404 : is404Error e = true
    · exact .inl (by simp [candidateFailLabel, hres, h404])
    · by_cases hrl : isRateLimitError e = true
      · exact .inr (by simp [candidateFailLabel, hres, h404, hrl])
      · simp [candidateFailLabel, hres, h404, hrl] at h

/-- When every candidate in the roster fails classified, the loop runs to
exhaustion: all candidates are invoked in order and the final
`failedModels` is the list of their labels. -/
theorem runCandidates_all_fail (behav : String → Nat → Except JsError String)
    (roster : List String) :
    ∀ (failed0 : List String) (last0 : Option JsError),
    (∀ m' ∈ roster, (candidateFailLabel behav m').isSome) →
    ∃ lastE, runCandidates behav roster failed0 last0 =
      (.exhausted (failed0 ++ roster.filterMap (candidateFailLabel behav)) lastE,
       roster, failed0 ++ roster.filterMap (candidateFailLabel behav)) := by
  induction roster with
  | nil =>
    intro failed0 last0 _
    exact ⟨last0, by simp [runCandidates]⟩
  | cons m' rest ih =>
    intro failed0 last0 hall
    have hm' : (candidateFailLabel behav m').isSome := hall m' (by simp)
    have hrest : ∀ x ∈ rest, (candidateFailLabel behav x).isSome :=
      fun x hx => hall x (by simp [hx])
    cases hres : (retryWithBackoff (behav m') 3 1000).1 with
    | ok t => simp [candidateFailLabel, hres] at hm'
    | undef => simp [candidateFailLabel, hres] at hm'
    | thrown e =>
      by_cases h404 : is404Error e = true
      · obtain ⟨lastE, hE⟩ := ih (failed0 ++ [m']) (some e) hrest
        refine ⟨lastE, ?_⟩
        have hlab : candidateFailLabel behav m' = some m' := by
          simp [candidateFailLabel, hres, h404]
        simp only [runCandidates, hres, h404, if_true, List.append_eq]
        rw [hE]
        simp [hlab]
      · by_cases hrl : isRateLimitError e = true
        · obtain ⟨lastE, hE⟩ := ih (failed0 ++ [m' ++ " (quota exceeded)"]) (some e) hrest
          refine ⟨lastE, ?_⟩
          have hlab : candidateFailLabel behav m' = some (m' ++ " (quota exceeded)") := by
            simp [candidateFailLabel, hres, h404, hrl]
          simp only [runCandidates, hres, h404, hrl, List.append_eq]
          simp only [Bool.false_eq_true, if_false, if_true]
          rw [hE]
          simp [hlab]
        · simp [candidateFailLabel, hres, h404, hrl] at hm'

theorem mem_joinComma_isInfix : ∀ {l : List String} {x : String}, x ∈ l →
    x.data <:+: (joinComma l).data
  | [], _, h => absurd h (List.not_mem_nil _)
  | [a], x, h => by
    have hx : x = a := by simpa using h
    subst hx
    exact List.infix_refl _
  | a :: b :: rest, x, h => by
    rcases List.mem_cons.mp h with hx | hx
    · subst hx
      show x.data <:+: (x ++ ", " ++ joinComma (b :: rest)).data
      rw [String.data_append, String.data_append]
      exact ((List.prefix_append x.data ", ".data).trans
        (List.prefix_append _ _)).isInfix
    · have ihx := mem_joinComma_isInfix hx
      show x.data <:+: (a ++ ", " ++ joinComma (b :: rest)).data
      rw [String.data_append, String.data_append]
      exact ihx.trans (List.suffix_append _ _).isInfix

theorem strIncludes_of_infix {pat s : String} (h : pat.data <:+: s.data) :
    strIncludes s pat = true := listContains_of_isInfix h

theorem strStartsWith_append3 (a b c : String) : strStartsWith (a ++ b ++ c) a = true := by
  show (a.data.isPrefixOf (a ++ b ++ c).data) = true
  rw [String.data_append, String.data_append, List.isPrefixOf_iff_prefix]
  exact (List.prefix_append a.data b.data).trans
    ((List.prefix_append (a.data ++ b.data) c.data))

theorem append_ne_empty {a : String} (ha : a ≠ "") (b : String) : a ++ b ≠ "" := by
  intro h
  apply ha
  have hd : a.data ++ b.data = [] := by
    rw [← String.data_append, h]
  apply String.ext
  exact (List.append_eq_nil.mp hd).1

theorem aggregatedMessage_ne_empty (f : List String) (l : Option JsError) :
    aggregatedMessage f l ≠ "" := by
  unfold aggregatedMessage
  dsimp only
  split
  · exact append_ne_empty (append_ne_empty (append_ne_empty (by decide) _) _) _
  · split
    · exact append_ne_empty (append_ne_empty (append_ne_empty (by decide) _) _) _
    · split
      · exact append_ne_empty (append_ne_empty (append_ne_empty (by decide) _) _) _
      · exact append_ne_empty (by decide) _

theorem strIncludes_quota_suffix (m : String) :
    strIncludes (m ++ " (quota exceeded)") "quota" = true := by
  rw [strIncludes_append]
  exact listContains_append_of_right _ (by decide)

theorem roster_names_no_quota : ∀ m' ∈ modelsToTry, strIncludes m' "quota" = false := by
  decide

/-- The per-model backend call `generateGameCode` derives from `world` and
the composed final prompt. -/
def backendOf (world : String → String → Nat → Except JsError String)
    (prompt : String) (previousCode : Option String) : String → Nat → Except JsError String :=
  fun m k => world m (composeFinalPrompt prompt previousCode) k

theorem generateGameCode_eq (world : String → String → Nat → Except JsError String)
    (prompt : String) (previousCode : Option String) :
    generateGameCode world prompt previousCode =
      match runCandidates (backendOf world prompt previousCode) modelsToTry [] none with
      | (.success t, inv, failed) => (.ok t, inv, failed)
      | (.fatal e, inv, failed) =>
        (.error (if e.message = "" then "Failed to generate game code." else e.message),
         inv, failed)
      | (.exhausted failedModels lastError, inv, failed) =>
        (.error (if aggregatedMessage failedModels lastError = ""
            then "Failed to generate game code." else aggregatedMessage failedModels lastError),
         inv, failed) := rfl

theorem strStartsWith_of_isPrefix {a s : String} (h : a.data <+: s.data) :
    strStartsWith s a = true := by
  show a.data.isPrefixOf s.data = true
  rw [List.isPrefixOf_iff_prefix]
  exact h

/-- `head` starts, and `joined` sits inside, each diagnostic of the shape
`head ++ joined ++ fixedTail ++ lastMsg`. -/
theorem head_prefix_four (a b c d : String) :
    a.data <+: (a ++ b ++ c ++ d).data ∧ b.data <:+: (a ++ b ++ c ++ d).data := by
  constructor
  · simp only [String.data_append]
    exact ((List.prefix_append a.data b.data).trans
      (List.prefix_append _ c.data)).trans (List.prefix_append _ d.data)
  · simp only [String.data_append]
    exact (List.infix_append a.data b.data c.data).trans
      (List.prefix_append _ d.data).isInfix

/-- Properties of the aggregated diagnostic when every roster candidate
fails classified: it names every candidate, uses one of the three
all-failed templates, and picks the matching template in the all-quota,
all-not-found and mixed cases. -/
theorem aggregatedMessage_props (behav : String → Nat → Except JsError String)
    (hall : ∀ m' ∈ modelsToTry, (candidateFailLabel behav m').isSome) (lastE : Option JsError) :
    (∀ m' ∈ modelsToTry,
      strIncludes (aggregatedMessage (modelsToTry.filterMap (candidateFailLabel behav)) lastE)
        m' = true) ∧
    (strStartsWith (aggregatedMessage (modelsToTry.filterMap (candidateFailLabel behav)) lastE)
        quotaTemplateHead = true ∨
     strStartsWith (aggregatedMessage (modelsToTry.filterMap (candidateFailLabel behav)) lastE)
        notFoundTemplateHead = true ∨
     strStartsWith (aggregatedMessage (modelsToTry.filterMap (candidateFailLabel behav)) lastE)
        mixedTemplateHead = true) ∧
    ((∀ m' ∈ modelsToTry, candidateFailLabel behav m' = some (m' ++ " (quota exceeded)")) →
      strStartsWith (aggregatedMessage (modelsToTry.filterMap (candidateFailLabel behav)) lastE)
        quotaTemplateHead = true) ∧
    ((∀ m' ∈ modelsToTry, candidateFailLabel behav m' = some m') →
      strStartsWith (aggregatedMessage (modelsToTry.filterMap (candidateFailLabel behav)) lastE)
        notFoundTemplateHead = true) ∧
    ((∃ m₁ ∈ modelsToTry, candidateFailLabel behav m₁ = some (m₁ ++ " (quota exceeded)")) →
     (∃ m₂ ∈ modelsToTry, candidateFailLabel behav m₂ = some m₂) →
      strStartsWith (aggregatedMessage (modelsToTry.filterMap (candidateFailLabel behav)) lastE)
        mixedTemplateHead = true) := by
  set failed := modelsToTry.filterMap (candidateFailLabel behav) with hfailed
  -- at least one of the two template booleans is set
  have hhead : "gemini-2.5-flash" ∈ modelsToTry := by decide
  obtain ⟨x₀, hx₀⟩ : ∃ x, candidateFailLabel behav "gemini-2.5-flash" = some x := by
    rcases candidateFailLabel_cases (hall _ hhead) with h | h
    · exact ⟨_, h⟩
    · exact ⟨_, h⟩
  have hx₀mem : x₀ ∈ failed := List.mem_filterMap.mpr ⟨_, hhead, hx₀⟩
  have hor : failed.any (fun m => strIncludes m "quota") = true ∨
      failed.any (fun m => !(strIncludes m "quota")) = true := by
    cases hx : strIncludes x₀ "quota"
    · exact .inr (List.any_eq_true.mpr ⟨x₀, hx₀mem, by simp [hx]⟩)
    · exact .inl (List.any_eq_true.mpr ⟨x₀, hx₀mem, hx⟩)
  refine ⟨?_, ?_, ?_, ?_, ?_⟩
  · -- every candidate's name occurs in the message
    intro m' hm'
    obtain ⟨entry, hlab, hpre⟩ :
        ∃ entry, candidateFailLabel behav m' = some entry ∧ m'.data <+: entry.data := by
      rcases candidateFailLabel_cases (hall m' hm') with h | h
      · exact ⟨m', h, List.prefix_refl _⟩
      · refine ⟨m' ++ " (quota exceeded)", h, ?_⟩
        rw [String.data_append]
        exact List.prefix_append _ _
    have hmem : entry ∈ failed := List.mem_filterMap.mpr ⟨m', hm', hlab⟩
    have hinf : m'.data <:+: (joinComma failed).data :=
      hpre.isInfix.trans (mem_joinComma_isInfix hmem)
    unfold aggregatedMessage
    dsimp only
    split
    · exact strIncludes_of_infix (hinf.trans (head_prefix_four _ _ _ _).2)
    · split
      · exact strIncludes_of_infix (hinf.trans (head_prefix_four _ _ _ _).2)
      · split
        · exact strIncludes_of_infix (hinf.trans (head_prefix_four _ _ _ _).2)
        · rename_i h1 h2 h3
          rcases hor with h | h
          · exact absurd h h2
          · exact absurd h h3
  · -- one of the three templates
    cases hq : failed.any (fun m => strIncludes m "quota")
    · have h4 : failed.any (fun m => !(strIncludes m "quota")) = true := by
        rcases hor with h | h
        · exact absurd h (by simp [hq])
        · exact h
      refine .inr (.inl ?_)
      unfold aggregatedMessage
      dsimp only
      rw [hq, h4]
      simp only [Bool.false_and, Bool.false_eq_true, if_false, if_true]
      exact strStartsWith_of_isPrefix (head_prefix_four _ _ _ _).1
    · cases h4 : failed.any (fun m => !(strIncludes m "quota"))
      · refine .inl ?_
        unfold aggregatedMessage
        dsimp only
        rw [hq, h4]
        simp only [Bool.true_and, Bool.false_eq_true, if_false, if_true]
        exact strStartsWith_of_isPrefix (head_prefix_four _ _ _ _).1
      · refine .inr (.inr ?_)
        unfold aggregatedMessage
        dsimp only
        rw [hq, h4]
        simp only [Bool.true_and, if_true]
        exact strStartsWith_of_isPrefix (head_prefix_four _ _ _ _).1
  · -- all quota exhausted: the quota template
    intro hq
    have hQ : failed.any (fun m => strIncludes m "quota") = true := by
      refine List.any_eq_true.mpr ⟨"gemini-2.5-flash" ++ " (quota exceeded)", ?_, ?_⟩
      · exact List.mem_filterMap.mpr ⟨_, hhead, hq _ hhead⟩
      · exact strIncludes_quota_suffix _
    have h4 : failed.any (fun m => !(strIncludes m "quota")) = false := by
      rw [List.any_eq_false]
      intro x hxf
      obtain ⟨m', hm', hlx⟩ := List.mem_filterMap.mp hxf
      rw [hq m' hm'] at hlx
      obtain rfl : m' ++ " (quota exceeded)" = x := Option.some.inj hlx
      simp [strIncludes_quota_suffix]
    unfold aggregatedMessage
    dsimp only
    rw [hQ, h4]
    simp only [Bool.true_and, Bool.false_eq_true, if_false, if_true]
    exact strStartsWith_of_isPrefix (head_prefix_four _ _ _ _).1
  · -- all not found: the 404 template
    intro hnf
    have hQ : failed.any (fun m => strIncludes m "quota") = false := by
      rw [List.any_eq_false]
      intro x hxf
      obtain ⟨m', hm', hlx⟩ := List.mem_filterMap.mp hxf
      rw [hnf m' hm'] at hlx
      obtain rfl : m' = x := Option.some.inj hlx
      simp [roster_names_no_quota m' hm']
    have h4 : failed.any (fun m => !(strIncludes m "quota")) = true := by
      refine List.any_eq_true.mpr ⟨"gemini-2.5-flash", ?_, ?_⟩
      · exact List.mem_filterMap.mpr ⟨_, hhead, hnf _ hhead⟩
      · simp [roster_names_no_quota _ hhead]
    unfold aggregatedMessage
    dsimp only
    rw [hQ, h4]
    simp only [Bool.false_and, Bool.false_eq_true, if_false, if_true]
    exact strStartsWith_of_isPrefix (head_prefix_four _ _ _ _).1
  · -- mixed: the mixed template
    intro hq1 hq2
    obtain ⟨m₁, hm₁, hl₁⟩ := hq1
    obtain ⟨m₂, hm₂, hl₂⟩ := hq2
    have hQ : failed.any (fun m => strIncludes m "quota") = true :=
      List.any_eq_true.mpr ⟨m₁ ++ " (quota exceeded)",
        List.mem_filterMap.mpr ⟨_, hm₁, hl₁⟩, strIncludes_quota_suffix _⟩
    have h4 : failed.any (fun m => !(strIncludes m "quota")) = true :=
      List.any_eq_true.mpr ⟨m₂, List.mem_filterMap.mpr ⟨_, hm₂, hl₂⟩,
        by simp [roster_names_no_quota _ hm₂]⟩
    unfold aggregatedMessage
    dsimp only
    rw [hQ, h4]
    simp only [Bool.true_and, if_true]
    exact strStartsWith_of_isPrefix (head_prefix_four _ _ _ _).1

/-- C4: when every roster candidate fails classified, `generateGameCode`
rejects with a diagnostic that names every attempted candidate and uses
one of exactly three (pairwise distinct) all-failed templates; all quota →
the quota template, all not-found → the 404 template, mixed → the mixed
template. -/
theorem all_fail_aggregated_diagnostic :
    (∀ (world : String → String → Nat → Except JsError String) (p : String)
       (prev : Option String),
      (∀ m' ∈ modelsToTry, (candidateFailLabel (backendOf world p prev) m').isSome) →
      (∃ msg, (generateGameCode world p prev).1 = .error msg) ∧
      (∀ msg, (generateGameCode world p prev).1 = .error msg →
        (∀ m' ∈ modelsToTry, strIncludes msg m' = true) ∧
        (strStartsWith msg quotaTemplateHead = true ∨
         strStartsWith msg notFoundTemplateHead = true ∨
         strStartsWith msg mixedTemplateHead = true) ∧
        ((∀ m' ∈ modelsToTry,
            candidateFailLabel (backendOf world p prev) m' = some (m' ++ " (quota exceeded)")) →
          strStartsWith msg quotaTemplateHead = true) ∧
        ((∀ m' ∈ modelsToTry, candidateFailLabel (backendOf world p prev) m' = some m') →
          strStartsWith msg notFoundTemplateHead = true) ∧
        ((∃ m₁ ∈ modelsToTry, candidateFailLabel (backendOf world p prev) m₁ =
            some (m₁ ++ " (quota exceeded)")) →
         (∃ m₂ ∈ modelsToTry, candidateFailLabel (backendOf world p prev) m₂ = some m₂) →
          strStartsWith msg mixedTemplateHead = true))) ∧
    (quotaTemplateHead ≠ notFoundTemplateHead ∧ quotaTemplateHead ≠ mixedTemplateHead ∧
     notFoundTemplateHead ≠ mixedTemplateHead) := by
  refine ⟨?_, by decide, by decide, by decide⟩
  intro world p prev hall
  obtain ⟨lastE, hrun⟩ :=
    runCandidates_all_fail (backendOf world p prev) modelsToTry [] none hall
  have hmain := aggregatedMessage_props (backendOf world p prev) hall lastE
  have hgen1 : (generateGameCode world p prev).1 =
      .error (aggregatedMessage
        (modelsToTry.filterMap (candidateFailLabel (backendOf world p prev))) lastE) := by
    rw [generateGameCode_eq, hrun]
    dsimp only
    simp only [List.nil_append]
    rw [if_neg (aggregatedMessage_ne_empty _ _)]
  refine ⟨⟨_, hgen1⟩, ?_⟩
  intro msg hmsg
  have hmeq : aggregatedMessage
      (modelsToTry.filterMap (candidateFailLabel (backendOf world p prev))) lastE = msg := by
    have := hgen1.symm.trans hmsg
    exact Except.error.inj this
  rw [← hmeq]
  exact hmain

/-- The C4 witness world: every model always fails with the same quota
error. -/
def witnessAllQuotaWorld : String → String → Nat → Except JsError String :=
  fun _ _ _ => .error witnessQuotaErr

theorem all_fail_aggregated_diagnostic_witness :
    strStartsWith
      (match (generateGameCode witnessAllQuotaWorld "p" none).1 with
       | .error m => m
       | .ok t => t) quotaTemplateHead = true ∧
    strIncludes
      (match (generateGameCode witnessAllQuotaWorld "p" none).1 with
       | .error m => m
       | .ok t => t) "gemma-3-4b" = true := by
  obtain ⟨⟨msg, hmsg⟩, hprops⟩ :=
    all_fail_aggregated_diagnostic.1 witnessAllQuotaWorld "p" none (by decide)
  have h := hprops msg hmsg
  rw [hmsg]
  exact ⟨h.2.2.1 (by decide), h.1 "gemma-3-4b" (by decide)⟩

/-! ### Prompt composition properties -/

/-- C7 (amended): the composed prompt always embeds the literal `userText`;
without a prior source it contains no prior-source framing marker
(`EXISTING CODE:` / `I have an existing game code`) provided the user text
itself does not contain that marker; with a prior source it embeds both the
request text and the prior source verbatim. -/
theorem compose_embeds_usertext_and_prior (p : String) (_hp : p ≠ "") :
    strIncludes (composeFinalPrompt p none) p = true ∧
    (strIncludes p "EXISTING CODE:" = false →
      strIncludes (composeFinalPrompt p none) "EXISTING CODE:" = false) ∧
    (strIncludes p "I have an existing game code" = false →
      strIncludes (composeFinalPrompt p none) "I have an existing game code" = false) ∧
    (∀ prior : String,
      strIncludes (composeFinalPrompt p (some prior)) p = true ∧
      strIncludes (composeFinalPrompt p (some prior)) prior = true) := by
  refine ⟨?_, ?_, ?_, ?_⟩
  · show listContains p.data (composeFinalPrompt p none).data = true
    simp only [composeFinalPrompt, String.data_append]
    exact listContains_of_isInfix (List.infix_append _ _ _)
  · intro hmark
    show listContains _ (composeFinalPrompt p none).data = false
    simp only [composeFinalPrompt, String.data_append]
    refine not_listContains_append ?_ (by decide) (split_fail_right (by decide) _)
    exact not_listContains_append (by decide) hmark (split_fail_left (by decide) _)
  · intro hmark
    show listContains _ (composeFinalPrompt p none).data = false
    simp only [composeFinalPrompt, String.data_append]
    refine not_listContains_append ?_ (by decide) (split_fail_right (by decide) _)
    exact not_listContains_append (by decide) hmark (split_fail_left (by decide) _)
  · intro prior
    constructor
    · show listContains p.data (composeFinalPrompt p (some prior)).data = true
      simp only [composeFinalPrompt, String.data_append]
      refine listContains_of_isInfix ?_
      exact ((((List.suffix_append _ _).isInfix.trans
        (List.prefix_append _ _).isInfix).trans
        (List.prefix_append _ _).isInfix).trans
        (List.prefix_append _ _).isInfix)
    · show listContains prior.data (composeFinalPrompt p (some prior)).data = true
      simp only [composeFinalPrompt, String.data_append]
      refine listContains_of_isInfix ?_
      exact ((List.suffix_append _ _).isInfix.trans (List.prefix_append _ _).isInfix)

theorem compose_embeds_usertext_and_prior_witness :
    strIncludes (composeFinalPrompt "make pong" none) "make pong" = true ∧
    strIncludes (composeFinalPrompt "make pong" none) "EXISTING CODE:" = false ∧
    strIncludes (composeFinalPrompt "make pong" (some "<html>old</html>"))
      "<html>old</html>" = true := by
  have h := compose_embeds_usertext_and_prior "make pong" (by decide)
  exact ⟨h.1, h.2.1 (by decide), (h.2.2.2 "<html>old</html>").2⟩

/-- C7 counterexample: a non-empty user text that is itself the framing
marker makes the no-prior composition contain a prior-source framing
marker, so the unconditional claim fails. -/
theorem compose_marker_in_usertext_cex :
    ("EXISTING CODE:" : String) ≠ "" ∧
    strIncludes (composeFinalPrompt "EXISTING CODE:" none) "EXISTING CODE:" = true := by
  exact ⟨by decide, by decide⟩

/-! ### Trim algebra -/

theorem dropWhile_idem (p : Char → Bool) : ∀ l : List Char,
    (l.dropWhile p).dropWhile p = l.dropWhile p
  | [] => rfl
  | c :: rest => by
    by_cases h : p c = true
    · simp only [List.dropWhile_cons, h, if_true]
      exact dropWhile_idem p rest
    · simp [List.dropWhile_cons, h]

theorem dropTrailingWs_idem (l : List Char) :
    dropTrailingWs (dropTrailingWs l) = dropTrailingWs l := by
  unfold dropTrailingWs
  rw [List.reverse_reverse, dropWhile_idem]

theorem dropTrailingWs_isPrefix (l : List Char) : dropTrailingWs l <+: l := by
  have h : l.reverse.dropWhile isJsWs <:+ l.reverse := List.dropWhile_suffix _
  have := List.reverse_prefix.mpr h
  rwa [List.reverse_reverse] at this

theorem dropWhile_eq_self_of_nonws {v : List Char}
    (h : ∀ x ∈ v, isJsWs x = false) : v.dropWhile isJsWs = v := by
  cases v with
  | nil => rfl
  | cons c rest => simp [List.dropWhile_cons, h c (by simp)]

theorem dropWhile_of_dropTrailingWs_fixed {u : List Char}
    (hu : u.dropWhile isJsWs = u) :
    (dropTrailingWs u).dropWhile isJsWs = dropTrailingWs u := by
  cases hu' : u with
  | nil => simp [dropTrailingWs]
  | cons c rest =>
    have hc : isJsWs c = false := by
      rw [hu', List.dropWhile_cons] at hu
      by_cases hx : isJsWs c = true
      · rw [if_pos hx] at hu
        have hlen := congrArg List.length hu
        have hle : (rest.dropWhile isJsWs).length ≤ rest.length :=
          (List.dropWhile_suffix _).length_le
        simp at hlen
        omega
      · simpa using hx
    cases hd : dropTrailingWs (c :: rest) with
    | nil => rfl
    | cons d ds =>
      have hpre : d :: ds <+: c :: rest := hd ▸ dropTrailingWs_isPrefix (c :: rest)
      have hdc : d = c := (List.cons_prefix_cons.mp hpre).1
      subst hdc
      simp [List.dropWhile_cons, hc]

theorem jsTrim_idem (l : List Char) : jsTrim (jsTrim l) = jsTrim l := by
  unfold jsTrim
  rw [dropWhile_of_dropTrailingWs_fixed (dropWhile_idem isJsWs l), dropTrailingWs_idem]

/-- Splitting a list into its trimmed-right part and the whitespace run it
drops. -/
theorem dropTrailingWs_spec (l : List Char) :
    ∃ ws, l = dropTrailingWs l ++ ws ∧ ∀ x ∈ ws, isJsWs x = true := by
  refine ⟨(l.reverse.takeWhile isJsWs).reverse, ?_, ?_⟩
  · unfold dropTrailingWs
    conv_lhs => rw [← List.reverse_reverse l, ← List.takeWhile_append_dropWhile isJsWs l.reverse]
    rw [List.reverse_append]
  · intro x hx
    rw [List.mem_reverse] at hx
    exact List.mem_takeWhile_imp hx

theorem dropTrailingWs_append_ws {u : List Char} {c : Char} (hc : isJsWs c = true) :
    dropTrailingWs (u ++ [c]) = dropTrailingWs u := by
  unfold dropTrailingWs
  rw [List.reverse_append]
  simp [List.dropWhile_cons, hc]

theorem dropTrailingWs_append_nonws {u : List Char} {c : Char} (hc : isJsWs c = false) :
    dropTrailingWs (u ++ [c]) = u ++ [c] := by
  unfold dropTrailingWs
  rw [List.reverse_append]
  simp [List.dropWhile_cons, hc]

/-- Stripping trailing whitespace does not reach past a non-whitespace
prefix. -/
theorem dropTrailingWs_append_left {pre b : List Char}
    (hpre : ∀ x ∈ pre, isJsWs x = false) :
    dropTrailingWs (pre ++ b) = pre ++ dropTrailingWs b := by
  unfold dropTrailingWs
  rw [List.reverse_append, List.dropWhile_append]
  split
  · rename_i hemp
    rw [dropWhile_eq_self_of_nonws (fun x hx => hpre x (List.mem_reverse.mp hx))]
    rw [List.reverse_reverse]
    rw [List.isEmpty_eq_true] at hemp
    rw [hemp]
    simp
  · rw [List.reverse_append, List.reverse_reverse]

/-! ### The cleanup steps fix fence-free text -/

theorem dropExactPrefix_eq_some : ∀ {p l r : List Char},
    dropExactPrefix p l = some r → l = p ++ r
  | [], l, r, h => by
    have hlr : l = r := by simpa [dropExactPrefix] using h
    simpa using hlr
  | p :: ps, [], r, h => by simp [dropExactPrefix] at h
  | p :: ps, c :: cs, r, h => by
    rw [dropExactPrefix] at h
    by_cases hc : c = p
    · rw [if_pos hc] at h
      have := dropExactPrefix_eq_some h
      rw [List.cons_append, ← this, hc]
    · rw [if_neg hc] at h
      exact absurd h (by simp)

theorem dropExactPrefix_append_self : ∀ (p x : List Char),
    dropExactPrefix p (p ++ x) = some x
  | [], x => rfl
  | c :: ps, x => by
    rw [List.cons_append, dropExactPrefix, if_pos rfl]
    exact dropExactPrefix_append_self ps x

theorem dropExactPrefix_fence_none {l : List Char}
    (h : listContains "```".data l = false) :
    dropExactPrefix "```".data l = none := by
  cases hd : dropExactPrefix "```".data l with
  | none => rfl
  | some r =>
    exfalso
    have hl := dropExactPrefix_eq_some hd
    have htrue : listContains "```".data l = true := by
      rw [hl]
      exact listContains_append_of_left (listContains_of_isInfix (List.infix_refl _)) r
    rw [htrue] at h
    exact absurd h (by simp)

theorem stripFenceHtmlPrefix_id {l : List Char}
    (h : listContains "```".data l = false) : stripFenceHtmlPrefix l = l := by
  unfold stripFenceHtmlPrefix
  rw [dropExactPrefix_fence_none h]

theorem stripFencePrefix_id {l : List Char}
    (h : listContains "```".data l = false) : stripFencePrefix l = l := by
  unfold stripFencePrefix
  rw [dropExactPrefix_fence_none h]

theorem stripTrailingFence_id {l : List Char}
    (h : listContains "```".data l = false) : stripTrailingFence l = l := by
  unfold stripTrailingFence
  dsimp only
  have hsuf : "```".data.isSuffixOf (dropTrailingWs l) = false := by
    cases hs : "```".data.isSuffixOf (dropTrailingWs l)
    · rfl
    · exfalso
      have h1 : "```".data <:+ dropTrailingWs l := List.isSuffixOf_iff_suffix.mp hs
      have h2 : "```".data <:+: l := h1.isInfix.trans (dropTrailingWs_isPrefix l).isInfix
      rw [listContains_eq_false_iff] at h
      exact h h2
  rw [hsuf]
  simp

theorem gmStripAux_id : ∀ (fuel : Nat) {l : List Char},
    listContains "```".data l = false → gmStripAux fuel l = l
  | 0, l, _ => rfl
  | fuel + 1, [], _ => rfl
  | fuel + 1, c :: rest, h => by
    have hparts : "```".data.isPrefixOf (c :: rest) = false ∧
        listContains "```".data rest = false := by
      rw [listContains] at h
      exact ⟨(Bool.or_eq_false_iff.mp h).1, (Bool.or_eq_false_iff.mp h).2⟩
    rw [gmStripAux, hparts.1]
    simp only [Bool.false_eq_true, if_false]
    rw [gmStripAux_id fuel hparts.2]

theorem gmStripFences_id {l : List Char}
    (h : listContains "```".data l = false) : gmStripFences l = l :=
  gmStripAux_id l.length h

theorem keepThroughHtmlEnd_eq (l : List Char) : keepThroughHtmlEnd l = l := by
  unfold keepThroughHtmlEnd
  cases h : findHtmlEndIdx l with
  | none => rfl
  | some i =>
    apply List.take_of_length_le
    omega

/-! ### Document-start markers survive trimming -/

theorem dropCIPrefix_some_structure : ∀ {w l r : List Char},
    dropCIPrefix w l = some r →
    ∃ t, l = t ++ r ∧ List.Forall₂ (fun p c => c.toLower = p.toLower) w t
  | [], l, r, h => ⟨[], by simpa [dropCIPrefix] using h, .nil⟩
  | p :: ps, [], r, h => by simp [dropCIPrefix] at h
  | p :: ps, c :: cs, r, h => by
    rw [dropCIPrefix] at h
    by_cases hc : c.toLower = p.toLower
    · rw [if_pos hc] at h
      obtain ⟨t, ht, hf⟩ := dropCIPrefix_some_structure h
      exact ⟨c :: t, by rw [List.cons_append, ht], List.forall₂_cons.mpr ⟨hc, hf⟩⟩
    · rw [if_neg hc] at h
      exact absurd h (by simp)

theorem dropCIPrefix_of_forall₂ : ∀ {w t : List Char},
    List.Forall₂ (fun p c => c.toLower = p.toLower) w t →
    ∀ ext, dropCIPrefix w (t ++ ext) = some ext
  | [], [], _, ext => rfl
  | _ :: _, [], h, ext => by cases h
  | [], _ :: _, h, ext => by cases h
  | p :: ps, c :: ts, h, ext => by
    obtain ⟨hc, hf⟩ := List.forall₂_cons.mp h
    rw [List.cons_append, dropCIPrefix, if_pos hc]
    exact dropCIPrefix_of_forall₂ hf ext

/-- Whitespace characters are fixed points of `Char.toLower`. -/
theorem toLower_of_ws {c : Char} (h : isJsWs c = true) : c.toLower = c := by
  have hc : ((((c = ' ' ∨ c = '\t') ∨ c = '\n') ∨ c = '\r') ∨ c = '\x0b') ∨ c = '\x0c' := by
    simpa [isJsWs, Bool.or_eq_true, decide_eq_true_eq] using h
  rcases hc with ((((rfl | rfl) | rfl) | rfl) | rfl) | rfl <;> decide

/-- A character that case-folds onto a non-whitespace lowercase image is
itself not whitespace. -/
theorem nonws_of_toLower_eq {p c : Char} (h : c.toLower = p.toLower)
    (hp : isJsWs p.toLower = false) : isJsWs c = false := by
  cases hc : isJsWs c
  · rfl
  · exfalso
    rw [toLower_of_ws hc] at h
    rw [← h] at hp
    rw [hc] at hp
    exact absurd hp (by simp)

/-- Every character of every document-start word stays non-whitespace under
case folding. -/
theorem htmlStartWords_lower_nonws :
    ∀ w ∈ htmlStartWords, ∀ p ∈ w, isJsWs p.toLower = false := by
  decide

theorem markerAt_append {l ext : List Char} (h : markerAt l = true) :
    markerAt (l ++ ext) = true := by
  cases l with
  | nil => simp [markerAt] at h
  | cons c rest =>
    rw [markerAt, Bool.and_eq_true] at h
    obtain ⟨hc, hw⟩ := h
    rw [List.any_eq_true] at hw
    obtain ⟨w, hwmem, hwsome⟩ := hw
    rw [Option.isSome_iff_exists] at hwsome
    obtain ⟨r, hr⟩ := hwsome
    obtain ⟨t, ht, hf⟩ := dropCIPrefix_some_structure hr
    rw [List.cons_append, markerAt, Bool.and_eq_true]
    refine ⟨hc, List.any_eq_true.mpr ⟨w, hwmem, ?_⟩⟩
    rw [ht, List.append_assoc, dropCIPrefix_of_forall₂ hf (r ++ ext)]
    rfl

/-- The matched text of a case-insensitive word whose lowercase image is
non-whitespace is itself non-whitespace. -/
theorem forall₂_ci_nonws : ∀ {w t : List Char},
    List.Forall₂ (fun p c => c.toLower = p.toLower) w t →
    (∀ p ∈ w, isJsWs p.toLower = false) → ∀ x ∈ t, isJsWs x = false
  | [], [], _, _, x, hx => absurd hx (List.not_mem_nil x)
  | _ :: _, [], h, _, x, hx => absurd hx (List.not_mem_nil x)
  | [], _ :: _, h, _, _, _ => by cases h
  | p :: ps, c :: ts, h, hw, x, hx => by
    obtain ⟨hc, hf⟩ := List.forall₂_cons.mp h
    rcases List.mem_cons.mp hx with rfl | hx'
    · exact nonws_of_toLower_eq hc (hw p (by simp))
    · exact forall₂_ci_nonws hf (fun q hq => hw q (by simp [hq])) x hx'

/-- A document-start marker is untouched by a right trim: its characters
are all non-whitespace, so the trim stays strictly to its right. -/
theorem markerAt_dropTrailingWs {l : List Char} (h : markerAt l = true) :
    markerAt (dropTrailingWs l) = true := by
  cases l with
  | nil => simp [markerAt] at h
  | cons c rest =>
    rw [markerAt, Bool.and_eq_true] at h
    obtain ⟨hc, hw⟩ := h
    rw [List.any_eq_true] at hw
    obtain ⟨w, hwmem, hwsome⟩ := hw
    rw [Option.isSome_iff_exists] at hwsome
    obtain ⟨r, hr⟩ := hwsome
    obtain ⟨t, ht, hf⟩ := dropCIPrefix_some_structure hr
    have hcc : c = '<' := by simpa [decide_eq_true_eq] using hc
    have hnonws : ∀ x ∈ c :: t, isJsWs x = false := by
      intro x hx
      rcases List.mem_cons.mp hx with rfl | hx'
      · rw [hcc]
        decide
      · exact forall₂_ci_nonws hf (htmlStartWords_lower_nonws w hwmem) x hx'
    have hl : c :: rest = (c :: t) ++ r := by rw [List.cons_append, ht]
    rw [hl, dropTrailingWs_append_left hnonws, List.cons_append, markerAt, Bool.and_eq_true]
    refine ⟨hc, List.any_eq_true.mpr ⟨w, hwmem, ?_⟩⟩
    rw [dropCIPrefix_of_forall₂ hf (dropTrailingWs r)]
    rfl

theorem findMarkerIdx_none_iff : ∀ l : List Char,
    findMarkerIdx l = none ↔ ∀ i, markerAt (l.drop i) = false
  | [] => by simp [findMarkerIdx, markerAt]
  | c :: rest => by
    constructor
    · intro h i
      rw [findMarkerIdx] at h
      by_cases hm : markerAt (c :: rest) = true
      · rw [if_pos hm] at h
        exact absurd h (by simp)
      · rw [if_neg hm] at h
        have hrest : findMarkerIdx rest = none := by
          cases hr : findMarkerIdx rest
          · rfl
          · rw [hr] at h
            exact absurd h (by simp)
        cases i with
        | zero => simpa using (Bool.not_eq_true _).mp hm
        | succ j => simpa using (findMarkerIdx_none_iff rest).mp hrest j
    · intro h
      rw [findMarkerIdx]
      have hm : markerAt (c :: rest) = false := by simpa using h 0
      rw [hm]
      simp only [Bool.false_eq_true, if_false]
      have hrest : findMarkerIdx rest = none :=
        (findMarkerIdx_none_iff rest).mpr (fun j => by simpa using h (j + 1))
      rw [hrest]
      rfl

theorem findMarkerIdx_some_markerAt : ∀ {l : List Char} {i : Nat},
    findMarkerIdx l = some i → markerAt (l.drop i) = true
  | [], i, h => by simp [findMarkerIdx] at h
  | c :: rest, i, h => by
    rw [findMarkerIdx] at h
    by_cases hm : markerAt (c :: rest) = true
    · rw [if_pos hm] at h
      have hi : i = 0 := by simpa using h.symm
      subst hi
      simpa using hm
    · rw [if_neg hm] at h
      cases hr : findMarkerIdx rest with
      | none =>
        rw [hr] at h
        simp at h
      | some j =>
        rw [hr] at h
        have hi : i = j + 1 := by simpa using h.symm
        subst hi
        simpa using findMarkerIdx_some_markerAt hr

theorem noMarker_of_suffix {l l' : List Char} (h : findMarkerIdx l = none)
    (hs : l' <:+ l) : findMarkerIdx l' = none := by
  rw [findMarkerIdx_none_iff] at h ⊢
  intro i
  obtain ⟨t, ht⟩ := hs
  have := h (t.length + i)
  rwa [← ht, List.drop_append] at this

theorem noMarker_of_isPrefix {l l' : List Char} (h : findMarkerIdx l = none)
    (hs : l' <+: l) : findMarkerIdx l' = none := by
  rw [findMarkerIdx_none_iff] at h ⊢
  intro i
  obtain ⟨t, ht⟩ := hs
  by_cases hi : i ≤ l'.length
  · have hfull := h i
    rw [← ht, List.drop_append_of_le_length hi] at hfull
    cases hmk : markerAt (l'.drop i)
    · rfl
    · exact absurd (markerAt_append hmk) (by rw [hfull]; simp)
  · have hnil : l'.drop i = [] := by
      apply List.drop_eq_nil_of_le
      omega
    rw [hnil]
    rfl

theorem markerAt_jsTrim {v : List Char} (h : markerAt v = true) :
    markerAt (jsTrim v) = true := by
  cases v with
  | nil => simp [markerAt] at h
  | cons c rest =>
    have hcc : c = '<' := by
      rw [markerAt, Bool.and_eq_true] at h
      simpa [decide_eq_true_eq] using h.1
    unfold jsTrim
    have hdw : (c :: rest).dropWhile isJsWs = c :: rest := by
      rw [List.dropWhile_cons]
      have hcw : isJsWs c = false := by
        rw [hcc]
        decide
      rw [hcw]
      simp
    rw [hdw]
    exact markerAt_dropTrailingWs h

theorem dropBeforeHtmlStart_of_none {l : List Char} (h : findMarkerIdx l = none) :
    dropBeforeHtmlStart l = l := by
  simp [dropBeforeHtmlStart, h]

theorem dropBeforeHtmlStart_of_markerAt {l : List Char} (h : markerAt l = true) :
    dropBeforeHtmlStart l = l := by
  cases l with
  | nil => simp [markerAt] at h
  | cons c rest =>
    rw [dropBeforeHtmlStart, findMarkerIdx, if_pos h]
    simp

theorem markerAt_dropBeforeHtmlStart_of_some {l : List Char} {i : Nat}
    (h : findMarkerIdx l = some i) : markerAt (dropBeforeHtmlStart l) = true := by
  rw [dropBeforeHtmlStart, h]
  dsimp only
  by_cases hi : i > 0
  · rw [if_pos hi]
    exact findMarkerIdx_some_markerAt h
  · rw [if_neg hi]
    have h0 : i = 0 := by omega
    subst h0
    simpa using findMarkerIdx_some_markerAt h

theorem sanitizeText_data (s : String) : (sanitizeText s).data =
    jsTrim (keepThroughHtmlEnd (dropBeforeHtmlStart (gmStripFences
      (stripTrailingFence (stripFencePrefix (stripFenceHtmlPrefix s.data)))))) := rfl

/-- The cleanup's output either holds no document-start marker at all or
starts with one (prose before the first marker is gone and trimming cannot
behead a marker). -/
theorem sanitize_marker_status (s : String) :
    findMarkerIdx (sanitizeText s).data = none ∨ markerAt (sanitizeText s).data = true := by
  rw [sanitizeText_data, keepThroughHtmlEnd_eq]
  cases hfz : findMarkerIdx (gmStripFences
      (stripTrailingFence (stripFencePrefix (stripFenceHtmlPrefix s.data)))) with
  | none =>
    left
    rw [dropBeforeHtmlStart_of_none hfz]
    unfold jsTrim
    exact noMarker_of_isPrefix (noMarker_of_suffix hfz (List.dropWhile_suffix _))
      (dropTrailingWs_isPrefix _)
  | some i =>
    right
    exact markerAt_jsTrim (markerAt_dropBeforeHtmlStart_of_some hfz)

/-- Every already-trimmed, fence-free text whose marker structure is
settled (no marker, or a marker at the very front) is a fixed point of the
cleanup. -/
theorem sanitize_fixpoint (y : String)
    (hy : strIncludes y "```" = false)
    (hmt : findMarkerIdx y.data = none ∨ markerAt y.data = true)
    (htrim : jsTrim y.data = y.data) :
    sanitizeText y = y := by
  apply String.ext
  rw [sanitizeText_data]
  have hfree : listContains "```".data y.data = false := hy
  rw [stripFenceHtmlPrefix_id hfree, stripFencePrefix_id hfree,
    stripTrailingFence_id hfree, gmStripFences_id hfree, keepThroughHtmlEnd_eq]
  rcases hmt with hnone | hmark
  · rw [dropBeforeHtmlStart_of_none hnone, htrim]
  · rw [dropBeforeHtmlStart_of_markerAt hmark, htrim]

/-- C5 (amended): the Output Sanitizer is not idempotent in general — a
leading-whitespace-then-fence input gains a second stripping on the second
pass — but it is idempotent on every input whose first sanitization output
contains no ``` fence: there `sanitize (sanitize x) = sanitize x`. -/
theorem sanitize_idempotent_on_fence_free_output (s : String)
    (h : strIncludes (sanitizeText s) "```" = false) :
    sanitizeText (sanitizeText s) = sanitizeText s := by
  apply sanitize_fixpoint _ h (sanitize_marker_status s)
  rw [sanitizeText_data]
  exact jsTrim_idem _

theorem sanitize_idempotent_on_fence_free_output_witness :
    sanitizeText (sanitizeText "```html\n<div>hi</div>\n```") =
      sanitizeText "```html\n<div>hi</div>\n```" :=
  sanitize_idempotent_on_fence_free_output _ (by decide)

/-- C5 counterexample: on `"\n\x60\x60\x60a"` the first pass only trims the
leading newline, exposing a fence that the second pass strips, so
`sanitize (sanitize x) ≠ sanitize x`. -/
theorem sanitize_not_idempotent_cex :
    sanitizeText "\n```a" = "```a" ∧
    sanitizeText (sanitizeText "\n```a") = "a" ∧
    ("```a" : String) ≠ "a" :=
  ⟨by decide, by decide, by decide⟩

/-! ### Boundary extraction -/

theorem markerAt_head {l : List Char} (h : markerAt l = true) : ∃ tl, l = '<' :: tl := by
  cases l with
  | nil => simp [markerAt] at h
  | cons c rest =>
    rw [markerAt, Bool.and_eq_true] at h
    have hcc : c = '<' := by simpa [decide_eq_true_eq] using h.1
    exact ⟨rest, by rw [hcc]⟩

theorem forall₂_ci_refl : ∀ w : List Char,
    List.Forall₂ (fun p c => c.toLower = p.toLower) w w
  | [] => .nil
  | _ :: ws => List.forall₂_cons.mpr ⟨rfl, forall₂_ci_refl ws⟩

theorem dropCIPrefix_self_append (w x : List Char) : dropCIPrefix w (w ++ x) = some x :=
  dropCIPrefix_of_forall₂ (forall₂_ci_refl w) x

theorem dropCIPrefix_cons_ne {p c : Char} {ps cs : List Char}
    (h : ¬ c.toLower = p.toLower) : dropCIPrefix (p :: ps) (c :: cs) = none := by
  rw [dropCIPrefix, if_neg h]

theorem dropExactPrefix_ticks_head_lt {cs : List Char} :
    dropExactPrefix "```".data ('<' :: cs) = none := by
  cases hd : dropExactPrefix "```".data ('<' :: cs) with
  | none => rfl
  | some r =>
    exfalso
    have h := dropExactPrefix_eq_some hd
    have hh := congrArg List.head? h
    have hbt : ("```".data ++ r).head? = some (Char.ofNat 96) := rfl
    rw [hbt] at hh
    exact absurd (Option.some.inj hh) (by decide)

theorem string_ne_empty_data {s : String} (h : s ≠ "") : s.data ≠ [] := by
  intro hnil
  exact h (String.ext (by rw [hnil]))

theorem findMarkerIdx_append_left_none {a b : List Char}
    (ha : ∀ c ∈ a, c ≠ '<') (hb : markerAt b = true) :
    findMarkerIdx (a ++ b) = some a.length := by
  induction a with
  | nil =>
    obtain ⟨tl, htl⟩ := markerAt_head hb
    rw [List.nil_append, htl, findMarkerIdx, if_pos (htl ▸ hb)]
    rfl
  | cons x a' ih =>
    have hm : markerAt (x :: (a' ++ b)) = false := by
      rw [markerAt]
      have hx : decide (x = '<') = false := decide_eq_false (ha x (by simp))
      rw [hx]
      rfl
    rw [List.cons_append, findMarkerIdx, if_neg (by rw [hm]; simp)]
    rw [ih (fun c hc => ha c (by simp [hc]))]
    rfl

theorem stripFenceHtmlPrefix_tagged (X : List Char) :
    stripFenceHtmlPrefix ("```".data ++ ("html".data ++ X)) = X.dropWhile isJsWs := by
  unfold stripFenceHtmlPrefix
  rw [dropExactPrefix_append_self]
  dsimp only
  rw [dropCIPrefix_self_append]

theorem stripFenceHtmlPrefix_untagged {X : List Char}
    (hX : dropCIPrefix "html".data X = none) :
    stripFenceHtmlPrefix ("```".data ++ X) = "```".data ++ X := by
  unfold stripFenceHtmlPrefix
  rw [dropExactPrefix_append_self]
  dsimp only
  rw [hX]

theorem stripFencePrefix_strips (X : List Char) :
    stripFencePrefix ("```".data ++ X) = X.dropWhile isJsWs := by
  unfold stripFencePrefix
  rw [dropExactPrefix_append_self]

theorem stripFencePrefix_head_lt {cs : List Char} :
    stripFencePrefix ('<' :: cs) = '<' :: cs := by
  unfold stripFencePrefix
  rw [dropExactPrefix_ticks_head_lt]

theorem stripTrailingFence_strips (u : List Char) :
    stripTrailingFence ((u ++ ['\n']) ++ "```".data) = u ++ ['\n'] := by
  unfold stripTrailingFence
  dsimp only
  have h96 : ("```".data : List Char) = "``".data ++ [Char.ofNat 96] := by decide
  have hdt : dropTrailingWs ((u ++ ['\n']) ++ "```".data) = (u ++ ['\n']) ++ "```".data := by
    conv_lhs => rw [h96, ← List.append_assoc]
    rw [dropTrailingWs_append_nonws (by decide), List.append_assoc, ← h96]
  rw [hdt]
  have hsuf : "```".data.isSuffixOf ((u ++ ['\n']) ++ "```".data) = true :=
    List.isSuffixOf_iff_suffix.mpr (List.suffix_append _ _)
  rw [hsuf]
  simp only [if_true]
  have harith : ((u ++ ['\n']) ++ "```".data).length - 3 = (u ++ ['\n']).length := by
    simp [List.length_append]
  rw [harith, List.take_left]

/-- The cleanup from the trailing-fence step on, applied to a fence-free
document followed by a final fence on its own line, yields the document. -/
theorem sanitize_tail_chain {d : String}
    (hfence : listContains "```".data d.data = false)
    (hmark : markerAt d.data = true) (htrim : jsTrim d.data = d.data) :
    jsTrim (keepThroughHtmlEnd (dropBeforeHtmlStart (gmStripFences
      (stripTrailingFence (d.data ++ "\n```".data))))) = d.data := by
  obtain ⟨dtl, hd⟩ := markerAt_head hmark
  have hdw : d.data.dropWhile isJsWs = d.data := by
    rw [hd, List.dropWhile_cons]
    simp [show isJsWs '<' = false from by decide]
  have hdt : dropTrailingWs d.data = d.data := by
    have h := htrim
    unfold jsTrim at h
    rw [hdw] at h
    exact h
  have hsplit : ("\n```".data : List Char) = ['\n'] ++ "```".data := by decide
  rw [hsplit, ← List.append_assoc, stripTrailingFence_strips]
  have hfree : listContains "```".data (d.data ++ ['\n']) = false := by
    refine not_listContains_append hfence (by decide) (split_fail_right ?_ _)
    decide
  rw [gmStripFences_id hfree]
  rw [dropBeforeHtmlStart_of_markerAt (markerAt_append hmark)]
  rw [keepThroughHtmlEnd_eq]
  unfold jsTrim
  have hdwn : (d.data ++ ['\n']).dropWhile isJsWs = d.data ++ ['\n'] := by
    rw [hd, List.cons_append, List.dropWhile_cons]
    simp [show isJsWs '<' = false from by decide]
  rw [hdwn, dropTrailingWs_append_ws (by decide), hdt]

/-- C6 (amended): the Output Sanitizer (a total function — it never throws)
strips surrounding formatting fences with or without a language tag, and
discards prose before the first recognized document-start marker; when no
fence and no marker are present it returns the trimmed text unchanged.
Trailing prose after the document-end marker, however, is **kept**: the
end-marker step only matches when `</html>` (plus whitespace) already ends
the text, and then it keeps the text through the end of the match, so it
never discards anything. -/
theorem sanitize_boundary_extraction :
    (∀ x : String, listContains "```".data x.data = false →
      findMarkerIdx x.data = none →
      sanitizeText x = (⟨jsTrim x.data⟩ : String)) ∧
    (∀ pre d : String, pre ≠ "" → (∀ c ∈ pre.data, c ≠ '<') →
      listContains "```".data (pre.data ++ d.data) = false →
      markerAt d.data = true → jsTrim d.data = d.data →
      sanitizeText (pre ++ d) = d) ∧
    (∀ d : String, listContains "```".data d.data = false →
      markerAt d.data = true → jsTrim d.data = d.data →
      sanitizeText ("```html\n" ++ d ++ "\n```") = d ∧
      sanitizeText ("```\n" ++ d ++ "\n```") = d) := by
  refine ⟨?_, ?_, ?_⟩
  · intro x hfence hnomark
    apply String.ext
    rw [sanitizeText_data]
    rw [stripFenceHtmlPrefix_id hfence, stripFencePrefix_id hfence,
      stripTrailingFence_id hfence, gmStripFences_id hfence, keepThroughHtmlEnd_eq,
      dropBeforeHtmlStart_of_none hnomark]
  · intro pre d hne hlt hfence hmark htrim
    apply String.ext
    have hdata : (pre ++ d).data = pre.data ++ d.data := String.data_append pre d
    rw [sanitizeText_data, hdata]
    rw [stripFenceHtmlPrefix_id hfence, stripFencePrefix_id hfence,
      stripTrailingFence_id hfence, gmStripFences_id hfence]
    have hidx : findMarkerIdx (pre.data ++ d.data) = some pre.data.length :=
      findMarkerIdx_append_left_none hlt hmark
    rw [dropBeforeHtmlStart, hidx]
    dsimp only
    have hpos : pre.data.length > 0 := by
      cases hp : pre.data with
      | nil => exact absurd hp (string_ne_empty_data hne)
      | cons c rest => simp [hp]
    rw [if_pos hpos, List.drop_left, keepThroughHtmlEnd_eq, htrim]
  · intro d hfence hmark htrim
    obtain ⟨dtl, hd⟩ := markerAt_head hmark
    constructor
    · apply String.ext
      rw [sanitizeText_data]
      have hinput : ("```html\n" ++ d ++ "\n```").data =
          "```".data ++ ("html".data ++ (['\n'] ++ (d.data ++ "\n```".data))) := by
        simp only [String.data_append]
        rfl
      rw [hinput, stripFenceHtmlPrefix_tagged]
      have hX : (['\n'] ++ (d.data ++ "\n```".data)).dropWhile isJsWs =
          d.data ++ "\n```".data := by
        rw [List.singleton_append, List.dropWhile_cons]
        simp only [show isJsWs '\n' = true from by decide, if_true]
        rw [hd, List.cons_append, List.dropWhile_cons]
        simp [show isJsWs '<' = false from by decide]
      rw [hX, hd, List.cons_append, stripFencePrefix_head_lt, ← List.cons_append, ← hd]
      exact sanitize_tail_chain hfence hmark htrim
    · apply String.ext
      rw [sanitizeText_data]
      have hinput : ("```\n" ++ d ++ "\n```").data =
          "```".data ++ ('\n' :: (d.data ++ "\n```".data)) := by
        simp only [String.data_append]
        rfl
      rw [hinput, stripFenceHtmlPrefix_untagged (dropCIPrefix_cons_ne (by decide)),
        stripFencePrefix_strips]
      have hX : ('\n' :: (d.data ++ "\n```".data)).dropWhile isJsWs =
          d.data ++ "\n```".data := by
        rw [List.dropWhile_cons]
        simp only [show isJsWs '\n' = true from by decide, if_true]
        rw [hd, List.cons_append, List.dropWhile_cons]
        simp [show isJsWs '<' = false from by decide]
      rw [hX]
      exact sanitize_tail_chain hfence hmark htrim

theorem sanitize_boundary_extraction_witness :
    sanitizeText "   no document here   " = "no document here" ∧
    sanitizeText ("Here is the code: " ++ "<div>hi</div>") = "<div>hi</div>" ∧
    sanitizeText ("```html\n" ++ "<div>hi</div>" ++ "\n```") = "<div>hi</div>" ∧
    sanitizeText ("```\n" ++ "<div>hi</div>" ++ "\n```") = "<div>hi</div>" := by
  have h1 := sanitize_boundary_extraction.1 "   no document here   " (by decide) (by decide)
  have h2 := sanitize_boundary_extraction.2.1 "Here is the code: " "<div>hi</div>"
    (by decide) (by decide) (by decide) (by decide) (by decide)
  have h3 := sanitize_boundary_extraction.2.2 "<div>hi</div>" (by decide) (by decide) (by decide)
  exact ⟨h1.trans (by decide), h2, h3.1, h3.2⟩

/-- C6 counterexample: trailing prose after the `</html>` end marker is not
discarded — the input is returned unchanged, not cut at the marker. -/
theorem sanitize_keeps_trailing_prose_cex :
    sanitizeText "<div>a</div></html>zzz" = "<div>a</div></html>zzz" ∧
    ("<div>a</div></html>zzz" : String) ≠ "<div>a</div></html>" :=
  ⟨by decide, by decide⟩

end Aster
